import Mathlib

/-!
# gonotify: the FileWatcher pipeline

A shallow embedding of `filewatcher.go`: the synchronous constructor
`NewFileWatcher` as a function over an explicit model of the inotify source,
and the two goroutines (relay stage, filter stage) together with the caller
as a labelled transition system whose schedules are the interleavings.
-/

namespace Gonotify

/-! ## Data model -/

/-- Go `error` values are kept as their message. -/
abbrev Error := String

/-- Modelled from the spec: the raw record type `InotifyEvent` is declared
outside `filewatcher.go`; the spec gives it as (watch identifier, entry name,
event bitmask). Only `Name` is inspected by the watcher. -/
structure InotifyEvent where
  Wd : Nat
  Name : String
  Mask : Nat
deriving DecidableEq, Repr

/-- The Go zero value `InotifyEvent{}`. -/
def InotifyEvent.zero : InotifyEvent := { Wd := 0, Name := "", Mask := 0 }

/-- Modelled from the spec: the type `FileEvent` is declared outside
`filewatcher.go`; the code builds it as `FileEvent{InotifyEvent: event}` and
`FileEvent{Eof: true}`, so it is the embedded raw record plus the flag `Eof`. -/
structure FileEvent where
  InotifyEvent : InotifyEvent
  Eof : Bool
deriving DecidableEq, Repr

/-- The composite literal `FileEvent{InotifyEvent: event}` of the relay stage
(line 65): the omitted field `Eof` takes its zero value. -/
def wrapEvent (event : InotifyEvent) : FileEvent :=
  { InotifyEvent := event, Eof := false }

/-- The composite literal `FileEvent{Eof: true}` of the filter stage (line 85):
the omitted field `InotifyEvent` takes its zero value. -/
def eofEvent : FileEvent :=
  { InotifyEvent := InotifyEvent.zero, Eof := true }

/-- The name read by `event.Name` (field promotion through the embedded struct). -/
def FileEvent.Name (ev : FileEvent) : String := ev.InotifyEvent.Name

/-! ## `map[string]bool` -/

/-- A Go `map[string]bool` as an association list, newest binding first. -/
abbrev GoMap := List (String × Bool)

/-- The result of `make(map[string]bool)`. -/
def GoMap.empty : GoMap := []

/-- The assignment `m[k] = v`. -/
def GoMap.set (m : GoMap) (k : String) (v : Bool) : GoMap := (k, v) :: m

/-- The index expression `m[k]`: the zero value `false` for a missing key. -/
def GoMap.get (m : GoMap) (k : String) : Bool :=
  match m with
  | [] => false
  | (k', v) :: rest => if k = k' then v else GoMap.get rest k

/-! ## `path/filepath.Dir` (Go standard library, Unix)

inotify exists on Linux only, so the separator is `/` and the volume name is
empty. The functions work on the characters of the path; `/` and `.` are
single bytes that never occur inside a multi-byte character, so this agrees
with the byte loop of the library. -/

/-- The predicate `os.IsPathSeparator` on Unix. -/
def isPathSeparator (c : Char) : Bool := c == '/'

/-- The backtracking loop of `Clean` for a `..` element: starting from write
index `w` (already decremented once), step back while `w > dotdot` and the
byte at `w` is not a separator. -/
def cleanBacktrack (out : List Char) (dotdot : Nat) : Nat → Nat
  | 0 => 0
  | w + 1 =>
    if w + 1 > dotdot && !(isPathSeparator (out.getD (w + 1) '/')) then
      cleanBacktrack out dotdot w
    else w + 1

/-- The main loop of `filepath.Clean`: `rest` is the unread input `path[r:]`,
`out` the bytes written so far (`out.w = out.length`), `dotdot` the index
where `..` must stop. The fuel bounds the number of iterations by the input
length. -/
def cleanLoop (rooted : Bool) : Nat → List Char → List Char → Nat → List Char
  | 0, _, out, _ => out
  | fuel + 1, rest, out, dotdot =>
    match rest with
    | [] => out
    | c :: t =>
      if isPathSeparator c then
        -- empty path element
        cleanLoop rooted fuel t out dotdot
      else if c == '.' && (t.isEmpty || isPathSeparator (t.headD '/')) then
        -- . element
        cleanLoop rooted fuel t out dotdot
      else if c == '.' && t.headD 'x' == '.' &&
          (t.tail.isEmpty || isPathSeparator (t.tail.headD '/')) then
        -- .. element: remove to last separator
        if out.length > dotdot then
          cleanLoop rooted fuel t.tail
            (out.take (cleanBacktrack out dotdot (out.length - 1))) dotdot
        else if !rooted then
          let out1 := if out.length > 0 then out ++ ['/'] else out
          let out2 := out1 ++ ['.', '.']
          cleanLoop rooted fuel t.tail out2 out2.length
        else
          cleanLoop rooted fuel t.tail out dotdot
      else
        -- real path element: add slash if needed, then copy the element
        let out1 :=
          if (rooted && out.length != 1) || (!rooted && out.length != 0) then out ++ ['/']
          else out
        let elem := rest.takeWhile (fun x => !(isPathSeparator x))
        cleanLoop rooted fuel (rest.dropWhile (fun x => !(isPathSeparator x)))
          (out1 ++ elem) dotdot

/-- The function `filepath.Clean` on Unix. -/
def filepathClean (path : List Char) : List Char :=
  match path with
  | [] => ['.']
  | c :: _ =>
    let rooted := isPathSeparator c
    let out := cleanLoop rooted (path.length + 1)
      (if rooted then path.tail else path) (if rooted then ['/'] else [])
      (if rooted then 1 else 0)
    if out.isEmpty then ['.'] else out

/-- The scan of `filepath.Dir`: drop trailing bytes up to, and keeping, the
last path separator (`path[:i+1]`). -/
def dirCut (path : List Char) : List Char :=
  (path.reverse.dropWhile (fun x => !(isPathSeparator x))).reverse

/-- The function `filepath.Dir` on Unix: everything up to the last separator, cleaned. -/
def filepathDir (path : String) : String :=
  String.mk (filepathClean (dirCut path.data))

/-! ## The inotify source (external collaborator) -/

/-- Modelled from the spec: the raw source (`NewInotify`, `AddWatch`, `Read`)
is declared outside `filewatcher.go`; the spec treats it as a black box
`open(context) -> Source, error`, `Source.watch(directory, eventMask) -> error`,
`Source.read() -> (list of RawEvent, error)`. Its behaviour is a parameter:
the outcome of opening it, of the `k`-th `AddWatch` call and of the `k`-th
`Read` call. -/
structure Source where
  openErr : Option Error
  addWatch : Nat → String → Nat → Option Error
  read : Nat → Except Error (List InotifyEvent)

/-! ## `NewFileWatcher`: the synchronous part (lines 23-47) -/

/-- What the constructor has done when it reaches line 47 or returns early. -/
structure Construction where
  /-- the `AddWatch(dir, mask)` calls issued, in order -/
  watches : List (String × Nat)
  /-- whether `cancel()` of the child context was called -/
  cancelled : Bool
  /-- the map built so far -/
  expectedPaths : GoMap
  /-- the error returned with a nil watcher, if any -/
  err : Option Error
deriving DecidableEq, Repr

/-- The loop of lines 38-45 over the remaining `files`, given the calls
already issued and the map built so far. -/
def registerLoop (src : Source) (mask : Nat) :
    List String → List (String × Nat) → GoMap → Construction
  | [], calls, m => { watches := calls, cancelled := false, expectedPaths := m, err := none }
  | file :: rest, calls, m =>
    match src.addWatch calls.length (filepathDir file) mask with
    | some err =>
      { watches := calls ++ [(filepathDir file, mask)], cancelled := true,
        expectedPaths := m, err := some err }
    | none =>
      registerLoop src mask rest (calls ++ [(filepathDir file, mask)]) (m.set file true)

/-- Lines 23-47 of `NewFileWatcher`. -/
def NewFileWatcher (src : Source) (mask : Nat) (files : List String) : Construction :=
  match src.openErr with
  | some err => { watches := [], cancelled := true, expectedPaths := GoMap.empty, err := some err }
  | none => registerLoop src mask files [] GoMap.empty

/-! ## The goroutines (lines 49-106) as a transition system

Both channels are unbuffered, and every channel operation of the two stages
sits in a `select` next to `<-ctx.Done()`. A goroutine that reaches a select
takes one of the cases that can proceed, whichever, and blocks when none can;
a send or receive can proceed when the other side is already blocked in the
matching operation, a receive also when the channel is closed. A blocked
goroutine continues when the other side completes the operation, or when
the closing of a channel wakes it with that case. The caller is anything that
receives from `f.C`, blocks there, or gives up. -/

/-- Program points of the relay goroutine (lines 50-71). -/
inductive RelayPc where
  /-- the goroutine was never spawned -/
  | notStarted
  /-- line 54, about to call `inotify.Read()` -/
  | read
  /-- line 62, about to evaluate the select for `ev`; `rest` is the rest of the batch -/
  | select (ev : InotifyEvent) (rest : List InotifyEvent)
  /-- blocked in the select of line 62 -/
  | parked (ev : InotifyEvent) (rest : List InotifyEvent)
  /-- woken from the select of line 62 by the closing of `ctx.Done()` -/
  | stopping
  /-- returned, `wg.Done()` executed -/
  | done
deriving DecidableEq, Repr

/-- Whether the relay is blocked in its select, offering a send on `events`. -/
def RelayPc.isParked : RelayPc → Bool
  | RelayPc.parked _ _ => true
  | _ => false

/-- Program points of the filter goroutine (lines 74-104). -/
inductive FilterPc where
  /-- the goroutine is not spawned (yet) -/
  | notStarted
  /-- line 78, about to evaluate the outer select -/
  | select
  /-- blocked in the select of line 78 -/
  | parked
  /-- line 84, about to evaluate the select that offers the end-of-stream event -/
  | eofSelect
  /-- blocked in the select of line 84 -/
  | eofParked
  /-- line 97, about to evaluate the select that offers `ev` -/
  | offer (ev : FileEvent)
  /-- blocked in the select of line 97 -/
  | offerParked (ev : FileEvent)
  /-- woken from a select by the closing of `ctx.Done()` -/
  | stopping
  /-- returned, `wg.Done()` executed -/
  | done
deriving DecidableEq, Repr

/-- Whether the filter is blocked in one of its selects. -/
def FilterPc.isParked : FilterPc → Bool
  | FilterPc.parked => true
  | FilterPc.eofParked => true
  | FilterPc.offerParked _ => true
  | _ => false

/-- The state of a watcher and of its observers. -/
structure State where
  /-- the map captured by the filter goroutine -/
  expectedPaths : GoMap
  /-- `ctx.Done()` of the child context is closed -/
  cancelled : Bool
  /-- number of `inotify.Read()` calls that have returned -/
  reads : Nat
  /-- number of `close(events)` executed -/
  closes : Nat
  relay : RelayPc
  filter : FilterPc
  /-- the caller is blocked in a receive on `f.C` -/
  callerWaiting : Bool
  /-- the values handed over on the internal channel `events`, oldest first -/
  internal : List FileEvent
  /-- the values handed over on `f.C`, oldest first -/
  delivered : List FileEvent
  /-- the counter of `f.wg` -/
  wg : Int
  /-- number of `WaitForStop` calls that have returned -/
  waits : Nat
deriving DecidableEq, Repr

/-- Whether `NewFileWatcher` has returned the watcher to the caller: it does
so right after spawning the filter goroutine (lines 74-106). -/
def State.returned (s : State) : Bool :=
  match s.filter with
  | FilterPc.notStarted => false
  | _ => true

/-- The state right after line 50 when construction succeeded (`wg.Add(1)`
done, relay goroutine spawned, filter goroutine not yet); when construction
failed, the state in which nothing was started and no watcher is returned. -/
def start (c : Construction) : State :=
  { expectedPaths := c.expectedPaths
    cancelled := c.cancelled
    reads := 0
    closes := 0
    relay := if c.err.isNone then RelayPc.read else RelayPc.notStarted
    filter := FilterPc.notStarted
    callerWaiting := false
    internal := []
    delivered := []
    wg := if c.err.isNone then 1 else 0
    waits := 0 }

/-- The atomic steps of the system; a schedule is a list of them. -/
inductive Action where
  /-- the constructor: lines 73-106 (`wg.Add(1)`, spawn the filter, return `f`) -/
  | spawnFilter
  /-- the child context is cancelled: `ctx.Done()` is closed, every goroutine
  blocked in a select is woken with the `ctx.Done()` case -/
  | cancel
  /-- relay: `inotify.Read()` returns (lines 54-59) -/
  | relayRead
  /-- relay: the select of line 62 takes the send; the filter is blocked in line 78 -/
  | relaySend
  /-- relay: no case of the select of line 62 can proceed, the goroutine blocks -/
  | relayPark
  /-- relay: the `ctx.Done()` case, `return` (lines 63-64) -/
  | relayDone
  /-- filter: the select of line 78 receives from the blocked relay -/
  | filterRecv
  /-- filter: the select of line 78 receives from the closed channel -/
  | filterRecvClosed
  /-- filter: a send on `f.C` proceeds, the caller is blocked receiving (lines 85, 98) -/
  | filterSend
  /-- filter: no case of the current select can proceed, the goroutine blocks -/
  | filterPark
  /-- filter: the `ctx.Done()` case of the current select, `return` -/
  | filterDone
  /-- caller: a receive on `f.C`; it takes the value of a blocked filter or blocks -/
  | callerRecv
  /-- caller: gives up a blocked receive (a select with another case) -/
  | callerLeave
  /-- caller: a call of `WaitForStop` returns -/
  | waitForStop
deriving DecidableEq, Repr

/-- Where the relay continues after `ev` of the batch is sent: the next
iteration of the `for range` loop, or the next `Read`. -/
def relayNext : List InotifyEvent → RelayPc
  | [] => RelayPc.read
  | ev :: rest => RelayPc.select ev rest

/-- Lines 93-97 of the filter: a received event not in `expectedPaths` is
skipped (`continue`), another one goes to the select of line 97. -/
def afterRecv (expectedPaths : GoMap) (event : FileEvent) : FilterPc :=
  if !(expectedPaths.get event.Name) then FilterPc.select else FilterPc.offer event

/-- One atomic step; `none` when the action is not enabled in the state. -/
def step (src : Source) (a : Action) (s : State) : Option State :=
  match a with
  | Action.spawnFilter =>
    if s.filter = FilterPc.notStarted ∧ s.relay ≠ RelayPc.notStarted then
      some { s with wg := s.wg + 1, filter := FilterPc.select }
    else none
  | Action.cancel =>
    some { s with
      cancelled := true
      relay := match s.relay with
        | RelayPc.parked _ _ => RelayPc.stopping
        | pc => pc
      filter := match s.filter with
        | FilterPc.parked => FilterPc.stopping
        | FilterPc.eofParked => FilterPc.stopping
        | FilterPc.offerParked _ => FilterPc.stopping
        | pc => pc }
  | Action.relayRead =>
    match s.relay with
    | RelayPc.read =>
      match src.read s.reads with
      | Except.error _ =>
        some { s with
          reads := s.reads + 1
          closes := s.closes + 1
          relay := RelayPc.done
          wg := s.wg - 1
          filter := match s.filter with
            | FilterPc.parked => FilterPc.eofSelect
            | pc => pc }
      | Except.ok raw => some { s with reads := s.reads + 1, relay := relayNext raw }
    | _ => none
  | Action.relaySend =>
    match s.relay, s.filter with
    | RelayPc.select ev rest, FilterPc.parked =>
      some { s with
        relay := relayNext rest
        filter := afterRecv s.expectedPaths (wrapEvent ev)
        internal := s.internal ++ [wrapEvent ev] }
    | _, _ => none
  | Action.relayPark =>
    match s.relay with
    | RelayPc.select ev rest =>
      if s.cancelled = false ∧ s.filter ≠ FilterPc.parked then
        some { s with relay := RelayPc.parked ev rest }
      else none
    | _ => none
  | Action.relayDone =>
    match s.relay with
    | RelayPc.select _ _ =>
      if s.cancelled then some { s with relay := RelayPc.done, wg := s.wg - 1 } else none
    | RelayPc.stopping => some { s with relay := RelayPc.done, wg := s.wg - 1 }
    | _ => none
  | Action.filterRecv =>
    match s.filter, s.relay with
    | FilterPc.select, RelayPc.parked ev rest =>
      some { s with
        relay := relayNext rest
        filter := afterRecv s.expectedPaths (wrapEvent ev)
        internal := s.internal ++ [wrapEvent ev] }
    | _, _ => none
  | Action.filterRecvClosed =>
    match s.filter with
    | FilterPc.select =>
      if 0 < s.closes then some { s with filter := FilterPc.eofSelect } else none
    | _ => none
  | Action.filterSend =>
    match s.filter with
    | FilterPc.eofSelect =>
      if s.callerWaiting then
        some { s with
          filter := FilterPc.done, wg := s.wg - 1
          callerWaiting := false, delivered := s.delivered ++ [eofEvent] }
      else none
    | FilterPc.offer ev =>
      if s.callerWaiting then
        some { s with
          filter := FilterPc.select
          callerWaiting := false, delivered := s.delivered ++ [ev] }
      else none
    | _ => none
  | Action.filterPark =>
    match s.filter with
    | FilterPc.select =>
      if s.cancelled = false ∧ s.closes = 0 ∧ s.relay.isParked = false then
        some { s with filter := FilterPc.parked }
      else none
    | FilterPc.eofSelect =>
      if s.cancelled = false ∧ s.callerWaiting = false then
        some { s with filter := FilterPc.eofParked }
      else none
    | FilterPc.offer ev =>
      if s.cancelled = false ∧ s.callerWaiting = false then
        some { s with filter := FilterPc.offerParked ev }
      else none
    | _ => none
  | Action.filterDone =>
    match s.filter with
    | FilterPc.select | FilterPc.eofSelect | FilterPc.offer _ =>
      if s.cancelled then some { s with filter := FilterPc.done, wg := s.wg - 1 } else none
    | FilterPc.stopping => some { s with filter := FilterPc.done, wg := s.wg - 1 }
    | _ => none
  | Action.callerRecv =>
    if s.returned = true ∧ s.callerWaiting = false then
      match s.filter with
      | FilterPc.eofParked =>
        some { s with
          filter := FilterPc.done, wg := s.wg - 1
          delivered := s.delivered ++ [eofEvent] }
      | FilterPc.offerParked ev =>
        some { s with filter := FilterPc.select, delivered := s.delivered ++ [ev] }
      | _ => some { s with callerWaiting := true }
    else none
  | Action.callerLeave =>
    if s.callerWaiting then some { s with callerWaiting := false } else none
  | Action.waitForStop =>
    if s.returned = true ∧ s.wg = 0 then some { s with waits := s.waits + 1 } else none

/-- Run a schedule from a state; `none` when some action of it is not enabled. -/
def run (src : Source) : List Action → State → Option State
  | [], s => some s
  | a :: rest, s =>
    match step src a s with
    | none => none
    | some s' => run src rest s'

/-! ## Specification vocabulary -/

/-- The records kept by the filter: those whose name is in the map. -/
def keep (m : GoMap) (l : List FileEvent) : List FileEvent :=
  l.filter (fun ev => m.get ev.Name)

/-- Whether the `i`-th `Read` call returns records. -/
def readOk (src : Source) (i : Nat) : Bool :=
  match src.read i with
  | Except.ok _ => true
  | Except.error _ => false

/-- The records of the `i`-th `Read` call (none when it fails). -/
def readBatch (src : Source) (i : Nat) : List InotifyEvent :=
  match src.read i with
  | Except.ok raw => raw
  | Except.error _ => []

/-- The records returned by the first `n` calls of `Read`, in order. -/
def readLog (src : Source) : Nat → List InotifyEvent
  | 0 => []
  | n + 1 => readLog src n ++ readBatch src n

/-- Every one of the first `n` calls of `Read` returned records. -/
def AllOk (src : Source) (n : Nat) : Prop := ∀ i, i < n → readOk src i = true

/-- The contribution of the relay goroutine to the counter of `f.wg`:
one from its `wg.Add(1)` until its `wg.Done()`. -/
def relayLive : RelayPc → Int
  | RelayPc.notStarted => 0
  | RelayPc.done => 0
  | _ => 1

/-- The contribution of the filter goroutine to the counter of `f.wg`. -/
def filterLive : FilterPc → Int
  | FilterPc.notStarted => 0
  | FilterPc.done => 0
  | _ => 1

/-! ## Invariants of the transition system -/

/-- Control invariant: who can be blocked where, when the internal channel
is closed, and the join counter. -/
def CtlInv (s : State) : Prop :=
  s.relay ≠ RelayPc.notStarted ∧
  (s.cancelled = true → s.relay.isParked = false ∧ s.filter.isParked = false) ∧
  (s.relay = RelayPc.stopping → s.cancelled = true) ∧
  (s.filter = FilterPc.stopping → s.cancelled = true) ∧
  (s.relay = RelayPc.done → s.cancelled = true ∨ 0 < s.closes) ∧
  (s.filter = FilterPc.done → s.cancelled = true ∨ 0 < s.closes) ∧
  (0 < s.closes → s.relay = RelayPc.done ∧ s.filter ≠ FilterPc.parked) ∧
  (s.filter = FilterPc.eofSelect ∨ s.filter = FilterPc.eofParked → 0 < s.closes) ∧
  (s.relay.isParked = true → s.filter ≠ FilterPc.parked) ∧
  (s.callerWaiting = true →
    s.filter ≠ FilterPc.eofParked ∧ ∀ ev, s.filter ≠ FilterPc.offerParked ev) ∧
  s.closes ≤ 1 ∧
  s.wg = relayLive s.relay + filterLive s.filter

/-- Relay invariant: what has been handed over on the internal channel, and
when that channel is closed. -/
def RelayInv (src : Source) (s : State) : Prop :=
  match s.relay with
  | RelayPc.notStarted => False
  | RelayPc.read =>
    s.closes = 0 ∧ AllOk src s.reads ∧ s.internal = (readLog src s.reads).map wrapEvent
  | RelayPc.select ev rest =>
    s.closes = 0 ∧ AllOk src s.reads ∧
      s.internal ++ (ev :: rest).map wrapEvent = (readLog src s.reads).map wrapEvent
  | RelayPc.parked ev rest =>
    s.closes = 0 ∧ AllOk src s.reads ∧
      s.internal ++ (ev :: rest).map wrapEvent = (readLog src s.reads).map wrapEvent
  | RelayPc.stopping =>
    s.closes = 0 ∧ AllOk src s.reads ∧ s.internal <+: (readLog src s.reads).map wrapEvent
  | RelayPc.done =>
    (s.closes = 0 ∧ AllOk src s.reads ∧ s.internal <+: (readLog src s.reads).map wrapEvent) ∨
    (s.closes = 1 ∧ s.internal = (readLog src s.reads).map wrapEvent ∧
      ∃ k, s.reads = k + 1 ∧ AllOk src k ∧ readOk src k = false)

/-- Filter invariant: what the filter stage has done with the values it received. -/
def FilterInv (s : State) : Prop :=
  match s.filter with
  | FilterPc.notStarted => s.delivered = keep s.expectedPaths s.internal
  | FilterPc.select => s.delivered = keep s.expectedPaths s.internal
  | FilterPc.parked => s.delivered = keep s.expectedPaths s.internal
  | FilterPc.eofSelect => s.delivered = keep s.expectedPaths s.internal
  | FilterPc.eofParked => s.delivered = keep s.expectedPaths s.internal
  | FilterPc.offer ev =>
    s.expectedPaths.get ev.Name = true ∧ s.delivered ++ [ev] = keep s.expectedPaths s.internal
  | FilterPc.offerParked ev =>
    s.expectedPaths.get ev.Name = true ∧ s.delivered ++ [ev] = keep s.expectedPaths s.internal
  | FilterPc.stopping =>
    s.cancelled = true ∧ s.delivered <+: keep s.expectedPaths s.internal
  | FilterPc.done =>
    (s.cancelled = true ∧ s.delivered <+: keep s.expectedPaths s.internal) ∨
      s.delivered = keep s.expectedPaths s.internal ++ [eofEvent]

/-- The state of a failed construction: nothing was started, nothing happened. -/
def Idle (s : State) : Prop :=
  s.relay = RelayPc.notStarted ∧ s.filter = FilterPc.notStarted ∧ s.reads = 0 ∧
    s.closes = 0 ∧ s.internal = [] ∧ s.delivered = [] ∧ s.wg = 0 ∧ s.waits = 0 ∧
    s.callerWaiting = false

/-- The join bookkeeping: `WaitForStop` has only returned when both stages
have returned. -/
def WaitInv (s : State) : Prop :=
  CtlInv s ∧ (0 < s.waits → s.relay = RelayPc.done ∧ s.filter = FilterPc.done)

/-- The pipeline at rest with everyone ready: not cancelled, the internal
channel open, the filter blocked in line 78 and the caller blocked in a
receive on `f.C`. -/
def Steady (s : State) : Prop :=
  s.cancelled = false ∧ s.closes = 0 ∧ s.filter = FilterPc.parked ∧ s.callerWaiting = true

/-- The steps of the two stages and the caller's receive: what happens when
nobody cancels and the caller keeps receiving. -/
def progressActions : List Action :=
  [Action.spawnFilter, Action.relayRead, Action.relaySend, Action.relayPark,
    Action.filterRecv, Action.filterRecvClosed, Action.filterSend, Action.filterPark,
    Action.callerRecv]

/-- Work left for the relay at a program point: a unit per pending select,
five per record still to hand over. -/
def relayWeight : RelayPc → Nat
  | RelayPc.notStarted => 0
  | RelayPc.read => 1
  | RelayPc.select _ rest => 3 + 5 * (rest.length + 1)
  | RelayPc.parked _ rest => 2 + 5 * (rest.length + 1)
  | RelayPc.stopping => 0
  | RelayPc.done => 0

/-- Work left for the filter at a program point. -/
def filterWeight : FilterPc → Nat
  | FilterPc.notStarted => 5
  | FilterPc.select => 4
  | FilterPc.parked => 3
  | FilterPc.eofSelect => 2
  | FilterPc.eofParked => 1
  | FilterPc.offer _ => 6
  | FilterPc.offerParked _ => 5
  | FilterPc.stopping => 0
  | FilterPc.done => 0

/-- Work left in the batches the source has not returned yet. -/
def batchesWeight (batches : List (List InotifyEvent)) (reads : Nat) : Nat :=
  ((batches.drop reads).map (fun raw => 3 + 5 * raw.length)).sum

/-- A bound on the number of steps of the stages and receives of the caller
that can still happen, for a source that returns `batches` and then fails. -/
def workLeft (batches : List (List InotifyEvent)) (s : State) : Nat :=
  relayWeight s.relay + filterWeight s.filter + (if s.callerWaiting then 0 else 1) +
    batchesWeight batches s.reads

/-! ## Sources and schedules used to exercise the model -/

/-- A source that opens, accepts every registration, returns the given
batches from its successive `Read` calls and then fails every `Read`. -/
def batchSource (batches : List (List InotifyEvent)) (err : Error) : Source where
  openErr := none
  addWatch := fun _ _ _ => none
  read := fun i =>
    match batches[i]? with
    | some raw => Except.ok raw
    | none => Except.error err

/-- A source whose `k`-th registration fails with `err`; nothing else fails. -/
def rejectingSource (k : Nat) (err : Error) : Source where
  openErr := none
  addWatch := fun i _ _ => if i = k then some err else none
  read := fun _ => Except.ok []

/-- The steps that move one record through the pipeline when the filter is
blocked in line 78 and the caller in a receive on `f.C`. -/
def recordSchedule (m : GoMap) (e : InotifyEvent) : List Action :=
  if m.get e.Name then
    [Action.relaySend, Action.filterSend, Action.filterPark, Action.callerRecv]
  else [Action.relaySend, Action.filterPark]

/-- The steps for one successful `Read` and the records it returns. -/
def batchSchedule (m : GoMap) (raw : List InotifyEvent) : List Action :=
  Action.relayRead :: raw.flatMap (recordSchedule m)

/-- A schedule without cancellation in which the caller receives every event:
the batches are read and moved through one record at a time, then the failing
`Read` closes the pipeline down. -/
def fullSchedule (m : GoMap) (batches : List (List InotifyEvent)) : List Action :=
  [Action.spawnFilter, Action.filterPark, Action.callerRecv] ++
    batches.flatMap (batchSchedule m) ++ [Action.relayRead, Action.filterSend]

/-- Create record for `/tmp/a` (mask `IN_CREATE`). -/
def evA : InotifyEvent := { Wd := 1, Name := "/tmp/a", Mask := 256 }

/-- Delete record for `/tmp/b` (mask `IN_DELETE`). -/
def evB : InotifyEvent := { Wd := 1, Name := "/tmp/b", Mask := 512 }

/-- Create record for `/tmp/c` (mask `IN_CREATE`). -/
def evC : InotifyEvent := { Wd := 1, Name := "/tmp/c", Mask := 256 }

/-- The source of the scenario: one batch with the records for `/tmp/a`,
`/tmp/c`, `/tmp/b`, then the source is exhausted. -/
def scenarioSource : Source := batchSource [[evA, evC, evB]] "closed"

/-- The construction of the scenario: paths `/tmp/a` and `/tmp/b`, mask
`IN_CREATE|IN_DELETE`. -/
def scenarioWatcher : Construction := NewFileWatcher scenarioSource 768 ["/tmp/a", "/tmp/b"]

/-- The state a schedule leads to from the start of the scenario (the start
itself when the schedule is not enabled). -/
def scenarioAfter (sched : List Action) : State :=
  (run scenarioSource sched (start scenarioWatcher)).getD (start scenarioWatcher)

/-! ## Preservation of the invariants -/

theorem prefix_of_append_eq {α : Type} {a b c : List α} (h : a ++ b = c) : a <+: c :=
  ⟨b, h⟩

theorem allOk_succ (src : Source) (n : Nat) :
    AllOk src (n + 1) ↔ AllOk src n ∧ readOk src n = true := by
  constructor
  · intro h
    exact ⟨fun i hi => h i (Nat.lt_succ_of_lt hi), h n (Nat.lt_succ_self n)⟩
  · rintro ⟨h1, h2⟩ i hi
    rcases Nat.lt_succ_iff_lt_or_eq.mp hi with h | h
    · exact h1 i h
    · rw [h]; exact h2

theorem keep_append (m : GoMap) (l : List FileEvent) (ev : FileEvent) :
    keep m (l ++ [ev]) = keep m l ++ (if m.get ev.Name = true then [ev] else []) := by
  simp [keep, List.filter_append, List.filter_cons]

set_option maxHeartbeats 4000000 in
theorem ctlInv_step (src : Source) (a : Action) (s s' : State)
    (h : CtlInv s) (hs : step src a s = some s') : CtlInv s' := by
  obtain ⟨m, c, r, cl, rp, fp, cw, int, del, wg, w⟩ := s
  simp only [CtlInv] at h
  obtain ⟨h1, h2, h3, h4, h5, h6, h7, h8, h9, h10, h11, h12⟩ := h
  cases a <;> simp only [step, State.returned, relayNext, afterRecv] at hs <;>
    (repeat' (split at hs)) <;> cases hs <;>
    simp only [CtlInv] <;>
    refine ⟨?_, ?_, ?_, ?_, ?_, ?_, ?_, ?_, ?_, ?_, ?_, ?_⟩ <;>
    first
      | assumption
      | simp_all [RelayPc.isParked, FilterPc.isParked, relayLive, filterLive]

set_option maxHeartbeats 4000000 in
theorem relayInv_step (src : Source) (a : Action) (s s' : State)
    (h : RelayInv src s) (hs : step src a s = some s') : RelayInv src s' := by
  obtain ⟨m, c, r, cl, rp, fp, cw, int, del, wg, w⟩ := s
  cases a <;> simp only [step, State.returned, relayNext, afterRecv] at hs <;>
    (repeat' (split at hs)) <;> cases hs <;>
    first
      | assumption
      | (simp_all [RelayInv, readLog, readBatch, readOk, allOk_succ]; done)
      | (simp only [RelayInv] at h ⊢
         obtain ⟨h1, h2, h3⟩ := h
         first
           | exact ⟨h1, h2, prefix_of_append_eq h3⟩
           | exact Or.inl ⟨h1, h2, prefix_of_append_eq h3⟩)

set_option maxHeartbeats 4000000 in
theorem filterInv_step (src : Source) (a : Action) (s s' : State)
    (h : FilterInv s) (hs : step src a s = some s') : FilterInv s' := by
  obtain ⟨m, c, r, cl, rp, fp, cw, int, del, wg, w⟩ := s
  cases a <;> simp only [step, State.returned, relayNext, afterRecv] at hs <;>
    (repeat' (split at hs)) <;> cases hs <;>
    first
      | assumption
      | (simp_all [FilterInv, keep_append]; done)
      | (simp only [FilterInv] at h ⊢
         have h3 := prefix_of_append_eq h.2
         tauto)
      | (simp only [FilterInv] at h ⊢; tauto)
      | (cases fp <;> simp only [FilterInv] at h ⊢ <;> tauto)

theorem idle_step (src : Source) (a : Action) (s s' : State)
    (h : Idle s) (hs : step src a s = some s') : Idle s' := by
  obtain ⟨m, c, r, cl, rp, fp, cw, int, del, wg, w⟩ := s
  simp only [Idle] at h
  obtain ⟨h1, h2, h3, h4, h5, h6, h7, h8, h9⟩ := h
  subst h1 h2 h3 h4 h5 h6 h7 h8 h9
  cases a <;> simp [step, State.returned] at hs
  subst hs
  simp [Idle]

theorem expectedPaths_step (src : Source) (a : Action) (s s' : State)
    (hs : step src a s = some s') : s'.expectedPaths = s.expectedPaths := by
  obtain ⟨m, c, r, cl, rp, fp, cw, int, del, wg, w⟩ := s
  cases a <;> simp only [step, State.returned, relayNext, afterRecv] at hs <;>
    (repeat' (split at hs)) <;> cases hs <;> rfl

/-! ## Schedules -/

theorem run_cons (src : Source) (a : Action) (rest : List Action) (s s' : State)
    (h : run src (a :: rest) s = some s') :
    ∃ s1, step src a s = some s1 ∧ run src rest s1 = some s' := by
  simp only [run] at h
  split at h
  · exact absurd h (by simp)
  · next s1 h1 => exact ⟨s1, h1, h⟩

theorem run_append (src : Source) (l1 l2 : List Action) (s s' : State)
    (h : run src (l1 ++ l2) s = some s') :
    ∃ s1, run src l1 s = some s1 ∧ run src l2 s1 = some s' := by
  induction l1 generalizing s with
  | nil => exact ⟨s, rfl, h⟩
  | cons a l ih =>
    obtain ⟨s1, h1, h2⟩ := run_cons src a (l ++ l2) s s' h
    obtain ⟨s2, h3, h4⟩ := ih s1 h2
    exact ⟨s2, by simp [run, h1, h3], h4⟩

theorem run_append_of (src : Source) (l1 l2 : List Action) (s s1 s2 : State)
    (h1 : run src l1 s = some s1) (h2 : run src l2 s1 = some s2) :
    run src (l1 ++ l2) s = some s2 := by
  induction l1 generalizing s with
  | nil => simp only [run, Option.some.injEq] at h1; subst h1; exact h2
  | cons a l ih =>
    obtain ⟨s3, h3, h4⟩ := run_cons src a l s s1 h1
    simp only [List.cons_append, run, h3]
    exact ih s3 h4

/-- An invariant of every step is an invariant of every schedule. -/
theorem run_invariant (src : Source) (P : State → Prop)
    (hstep : ∀ a s s', P s → step src a s = some s' → P s')
    (sched : List Action) (s s' : State) (h0 : P s) (h : run src sched s = some s') : P s' := by
  induction sched generalizing s with
  | nil => simp only [run, Option.some.injEq] at h; subst h; exact h0
  | cons a l ih =>
    obtain ⟨s1, h1, h2⟩ := run_cons src a l s s' h
    exact ih s1 (hstep a s s1 h0 h1) h2

/-! ## The constructor -/

theorem get_set (m : GoMap) (k p : String) :
    GoMap.get (m.set k true) p = true ↔ (p = k ∨ m.get p = true) := by
  simp only [GoMap.set, GoMap.get]
  split <;> simp_all

theorem registerLoop_ok (src : Source) (mask : Nat) (files : List String) :
    ∀ (calls : List (String × Nat)) (m : GoMap),
    (registerLoop src mask files calls m).err = none →
    (registerLoop src mask files calls m).cancelled = false ∧
    (registerLoop src mask files calls m).watches =
      calls ++ files.map (fun f => (filepathDir f, mask)) ∧
    ∀ p, (registerLoop src mask files calls m).expectedPaths.get p = true ↔
      (m.get p = true ∨ p ∈ files) := by
  induction files with
  | nil => intro calls m _; simp [registerLoop]
  | cons f rest ih =>
    intro calls m h
    simp only [registerLoop] at h ⊢
    split at h
    · simp at h
    · next hw =>
      obtain ⟨h1, h2, h3⟩ := ih _ _ h
      refine ⟨h1, ?_, ?_⟩
      · rw [h2]; simp
      · intro p
        rw [h3 p, get_set]
        simp only [List.mem_cons]
        tauto

theorem registerLoop_fail (src : Source) (mask : Nat) (files : List String) :
    ∀ (calls : List (String × Nat)) (m : GoMap) (k : Nat) (f : String) (err : Error),
    files[k]? = some f →
    (∀ j g, j < k → files[j]? = some g →
      src.addWatch (calls.length + j) (filepathDir g) mask = none) →
    src.addWatch (calls.length + k) (filepathDir f) mask = some err →
    (registerLoop src mask files calls m).err = some err ∧
    (registerLoop src mask files calls m).cancelled = true ∧
    (registerLoop src mask files calls m).watches =
      calls ++ (files.take (k + 1)).map (fun f => (filepathDir f, mask)) := by
  induction files with
  | nil => intro calls m k f err hk; simp at hk
  | cons g rest ih =>
    intro calls m k f err hk hprev hfail
    cases k with
    | zero =>
      simp only [List.getElem?_cons_zero, Option.some.injEq] at hk
      subst hk
      simp only [Nat.add_zero] at hfail
      simp [registerLoop, hfail]
    | succ k =>
      simp only [List.getElem?_cons_succ] at hk
      have h0 := hprev 0 g (Nat.succ_pos k) (by simp)
      simp only [Nat.add_zero] at h0
      simp only [registerLoop, h0]
      have := ih (calls ++ [(filepathDir g, mask)]) (m.set g true) k f err hk
        (fun j g' hj hg => by
          have := hprev (j + 1) g' (Nat.succ_lt_succ hj) (by simpa using hg)
          simpa [Nat.add_assoc, Nat.add_comm 1 j] using this)
        (by simpa [Nat.add_assoc, Nat.add_comm 1 k] using hfail)
      obtain ⟨h1, h2, h3⟩ := this
      refine ⟨h1, h2, ?_⟩
      rw [h3]; simp

theorem newFileWatcher_ok (src : Source) (mask : Nat) (files : List String)
    (h : (NewFileWatcher src mask files).err = none) :
    (NewFileWatcher src mask files).cancelled = false ∧
    (NewFileWatcher src mask files).watches = files.map (fun f => (filepathDir f, mask)) ∧
    ∀ p, (NewFileWatcher src mask files).expectedPaths.get p = true ↔ p ∈ files := by
  simp only [NewFileWatcher] at h ⊢
  split at h
  · simp at h
  · next ho =>
    obtain ⟨h1, h2, h3⟩ := registerLoop_ok src mask files [] GoMap.empty h
    refine ⟨h1, by simpa using h2, fun p => ?_⟩
    rw [h3 p]
    simp [GoMap.empty, GoMap.get]

/-- After a failed construction nothing is started. -/
theorem start_idle (c : Construction) (h : c.err ≠ none) : Idle (start c) := by
  cases hc : c.err with
  | none => exact absurd hc h
  | some e => simp [Idle, start, hc]

theorem start_inv (src : Source) (mask : Nat) (files : List String)
    (h : (NewFileWatcher src mask files).err = none) :
    CtlInv (start (NewFileWatcher src mask files)) ∧
    RelayInv src (start (NewFileWatcher src mask files)) ∧
    FilterInv (start (NewFileWatcher src mask files)) := by
  have hc := (newFileWatcher_ok src mask files h).1
  refine ⟨?_, ?_, ?_⟩
  · simp [CtlInv, start, h, hc, RelayPc.isParked, FilterPc.isParked, relayLive, filterLive]
  · simp [RelayInv, start, h, readLog, AllOk]
  · simp [FilterInv, start, keep]

/-- The invariants hold in every state reached after a successful construction. -/
theorem reach_inv (src : Source) (mask : Nat) (files : List String) (sched : List Action)
    (s : State) (h : (NewFileWatcher src mask files).err = none)
    (hr : run src sched (start (NewFileWatcher src mask files)) = some s) :
    CtlInv s ∧ RelayInv src s ∧ FilterInv s ∧
      s.expectedPaths = (NewFileWatcher src mask files).expectedPaths := by
  obtain ⟨h1, h2, h3⟩ := start_inv src mask files h
  refine ⟨?_, ?_, ?_, ?_⟩
  · exact run_invariant src CtlInv (ctlInv_step src) sched _ s h1 hr
  · exact run_invariant src (RelayInv src) (relayInv_step src) sched _ s h2 hr
  · exact run_invariant src FilterInv (filterInv_step src) sched _ s h3 hr
  · exact run_invariant src
      (fun t => t.expectedPaths = (NewFileWatcher src mask files).expectedPaths)
      (fun a t t' ht hs => (expectedPaths_step src a t t' hs).trans ht) sched _ s rfl hr

/-- After a failed construction every schedule leaves the system idle. -/
theorem reach_idle (src : Source) (c : Construction) (sched : List Action) (s : State)
    (h : c.err ≠ none) (hr : run src sched (start c) = some s) : Idle s :=
  run_invariant src Idle (idle_step src) sched _ s (start_idle c h) hr

/-! ## What reaches the output channel -/

theorem wrapEvent_ne_eof (e : InotifyEvent) : wrapEvent e ≠ eofEvent := by
  intro h
  have := congrArg FileEvent.Eof h
  simp [wrapEvent, eofEvent] at this

theorem mem_keep (m : GoMap) (l : List FileEvent) (ev : FileEvent) :
    ev ∈ keep m l ↔ ev ∈ l ∧ m.get ev.Name = true := by
  simp [keep, List.mem_filter]

/-- Every value on the internal channel is a record of the source, wrapped. -/
theorem internal_mem (src : Source) (s : State) (h : RelayInv src s) (ev : FileEvent)
    (hev : ev ∈ s.internal) : ∃ e, e ∈ readLog src s.reads ∧ ev = wrapEvent e := by
  have hp : s.internal <+: (readLog src s.reads).map wrapEvent := by
    obtain ⟨m, c, r, cl, rp, fp, cw, int, del, wg, w⟩ := s
    cases rp <;> simp only [RelayInv] at h ⊢
    · rw [h.2.2]
    · exact prefix_of_append_eq h.2.2
    · exact prefix_of_append_eq h.2.2
    · exact h.2.2
    · rcases h with h | h
      · exact h.2.2
      · rw [h.2.1]
  have := hp.subset hev
  obtain ⟨e, he, rfl⟩ := List.mem_map.mp this
  exact ⟨e, he, rfl⟩

/-- Every value on the output channel is the end-of-stream event or a kept
value of the internal channel. -/
theorem delivered_mem (s : State) (h : FilterInv s) (ev : FileEvent)
    (hev : ev ∈ s.delivered) : ev = eofEvent ∨ ev ∈ keep s.expectedPaths s.internal := by
  obtain ⟨m, c, r, cl, rp, fp, cw, int, del, wg, w⟩ := s
  cases fp <;> simp only [FilterInv] at h hev ⊢
  · rw [← h]; exact Or.inr hev
  · rw [← h]; exact Or.inr hev
  · rw [← h]; exact Or.inr hev
  · rw [← h]; exact Or.inr hev
  · rw [← h]; exact Or.inr hev
  · rw [← h.2]; exact Or.inr (List.mem_append_left _ hev)
  · rw [← h.2]; exact Or.inr (List.mem_append_left _ hev)
  · exact Or.inr (h.2.subset hev)
  · rcases h with h | h
    · exact Or.inr (h.2.subset hev)
    · rw [h] at hev
      rcases List.mem_append.mp hev with h1 | h1
      · exact Or.inr h1
      · exact Or.inl (by simpa using h1)

/-- The output is a list of kept records, then at most one end-of-stream
event; the end-of-stream event is only there once the filter has returned. -/
theorem delivered_shape (s : State) (h : FilterInv s) :
    ∃ recs, recs <+: keep s.expectedPaths s.internal ∧
      (s.delivered = recs ∨ (s.delivered = recs ++ [eofEvent] ∧ s.filter = FilterPc.done)) := by
  obtain ⟨m, c, r, cl, rp, fp, cw, int, del, wg, w⟩ := s
  cases fp <;> simp only [FilterInv] at h ⊢
  · exact ⟨del, by rw [h], Or.inl rfl⟩
  · exact ⟨del, by rw [h], Or.inl rfl⟩
  · exact ⟨del, by rw [h], Or.inl rfl⟩
  · exact ⟨del, by rw [h], Or.inl rfl⟩
  · exact ⟨del, by rw [h], Or.inl rfl⟩
  · exact ⟨del, prefix_of_append_eq h.2, Or.inl rfl⟩
  · exact ⟨del, prefix_of_append_eq h.2, Or.inl rfl⟩
  · exact ⟨del, h.2, Or.inl rfl⟩
  · rcases h with h | h
    · exact ⟨del, h.2, Or.inl rfl⟩
    · exact ⟨keep m int, List.prefix_refl _, Or.inr ⟨h, trivial⟩⟩

/-- Once the filter has returned, the output channel stays as it is. -/
theorem filter_done_step (src : Source) (a : Action) (s s' : State)
    (h : s.filter = FilterPc.done) (hs : step src a s = some s') :
    s'.filter = FilterPc.done ∧ s'.delivered = s.delivered := by
  obtain ⟨m, c, r, cl, rp, fp, cw, int, del, wg, w⟩ := s
  simp only at h
  subst h
  cases a <;> simp only [step, State.returned, relayNext, afterRecv] at hs <;>
    (repeat' (split at hs)) <;> cases hs <;> simp_all

theorem filter_done_run (src : Source) (sched : List Action) (s s' : State)
    (h : s.filter = FilterPc.done) (hr : run src sched s = some s') :
    s'.filter = FilterPc.done ∧ s'.delivered = s.delivered :=
  run_invariant src (fun t => t.filter = FilterPc.done ∧ t.delivered = s.delivered)
    (fun a t t' ht hs =>
      ⟨(filter_done_step src a t t' ht.1 hs).1,
        (filter_done_step src a t t' ht.1 hs).2.trans ht.2⟩)
    sched s s' ⟨h, rfl⟩ hr

/-- C1: every event delivered on `C` other than the end-of-stream event has a
`Name` equal to one of the paths passed to `NewFileWatcher`, and a record whose
`Name` is not one of these paths is never delivered, for every source, every
schedule of the two stages, of cancellation and of the caller. -/
theorem C1_delivered_names_are_requested (src : Source) (mask : Nat) (files : List String)
    (sched : List Action) (s : State)
    (hr : run src sched (start (NewFileWatcher src mask files)) = some s) :
    (∀ ev, ev ∈ s.delivered → ev ≠ eofEvent → ev.Name ∈ files) ∧
    (∀ e : InotifyEvent, e.Name ∉ files → wrapEvent e ∉ s.delivered) := by
  have key : ∀ ev, ev ∈ s.delivered → ev ≠ eofEvent → ev.Name ∈ files := by
    intro ev hev hne
    by_cases hc : (NewFileWatcher src mask files).err = none
    · obtain ⟨_, _, h3, h4⟩ := reach_inv src mask files sched s hc hr
      rcases delivered_mem s h3 ev hev with h | h
      · exact absurd h hne
      · rw [h4] at h
        exact ((newFileWatcher_ok src mask files hc).2.2 _).mp ((mem_keep _ _ _).mp h).2
    · have := reach_idle src _ sched s hc hr
      rw [this.2.2.2.2.2.1] at hev
      simp at hev
  refine ⟨key, fun e he hmem => he ?_⟩
  exact key (wrapEvent e) hmem (wrapEvent_ne_eof e)

/-- Witness of C1 on the scenario of the spec: after the record for `/tmp/a`
is delivered and the record for `/tmp/c` is handed to the filter, the output
holds the first only. -/
theorem C1_witness :
    run scenarioSource
        [Action.spawnFilter, Action.relayRead, Action.relayPark, Action.filterRecv,
          Action.callerRecv, Action.filterSend, Action.relayPark, Action.filterRecv]
        (start (NewFileWatcher scenarioSource 768 ["/tmp/a", "/tmp/b"])) =
      some (scenarioAfter
        [Action.spawnFilter, Action.relayRead, Action.relayPark, Action.filterRecv,
          Action.callerRecv, Action.filterSend, Action.relayPark, Action.filterRecv]) ∧
    (scenarioAfter
        [Action.spawnFilter, Action.relayRead, Action.relayPark, Action.filterRecv,
          Action.callerRecv, Action.filterSend, Action.relayPark,
          Action.filterRecv]).delivered = [wrapEvent evA] ∧
    wrapEvent evC ∉ (scenarioAfter
        [Action.spawnFilter, Action.relayRead, Action.relayPark, Action.filterRecv,
          Action.callerRecv, Action.filterSend, Action.relayPark,
          Action.filterRecv]).delivered :=
  ⟨by decide, by decide,
    (C1_delivered_names_are_requested scenarioSource 768 ["/tmp/a", "/tmp/b"]
      [Action.spawnFilter, Action.relayRead, Action.relayPark, Action.filterRecv,
        Action.callerRecv, Action.filterSend, Action.relayPark, Action.filterRecv] _
      (by decide)).2 evC (by decide)⟩

/-- The records of the output: a kept record of the internal channel is a
wrapped record of the source, so its `Eof` is false. -/
theorem delivered_records (src : Source) (s : State) (h2 : RelayInv src s) (h3 : FilterInv s) :
    ∃ recs, (∀ ev, ev ∈ recs → ∃ e, e ∈ readLog src s.reads ∧ ev = wrapEvent e) ∧
      (s.delivered = recs ∨ (s.delivered = recs ++ [eofEvent] ∧ s.filter = FilterPc.done)) := by
  obtain ⟨recs, hp, hs⟩ := delivered_shape s h3
  refine ⟨recs, fun ev hev => ?_, hs⟩
  exact internal_mem src s h2 ev ((mem_keep _ _ _).mp (hp.subset hev)).1

/-- C3: the sequence delivered on `C` is zero or more events with `Eof = false`
followed by at most one end-of-stream event; the end-of-stream event occurs at
most once, and once it is delivered no later schedule delivers anything. -/
theorem C3_eof_at_most_once_and_last (src : Source) (mask : Nat) (files : List String)
    (sched : List Action) (s : State)
    (hr : run src sched (start (NewFileWatcher src mask files)) = some s) :
    (∃ recs, (∀ ev, ev ∈ recs → ev.Eof = false) ∧
      (s.delivered = recs ∨ s.delivered = recs ++ [eofEvent])) ∧
    s.delivered.count eofEvent ≤ 1 ∧
    (eofEvent ∈ s.delivered →
      ∀ sched' s', run src sched' s = some s' → s'.delivered = s.delivered) := by
  by_cases hc : (NewFileWatcher src mask files).err = none
  · obtain ⟨_, h2, h3, _⟩ := reach_inv src mask files sched s hc hr
    obtain ⟨recs, hrec, hs⟩ := delivered_records src s h2 h3
    have hno : eofEvent ∉ recs := by
      intro hmem
      obtain ⟨e, _, he⟩ := hrec _ hmem
      exact wrapEvent_ne_eof e he.symm
    have hcount : recs.count eofEvent = 0 := List.count_eq_zero.mpr hno
    refine ⟨⟨recs, fun ev hev => ?_, ?_⟩, ?_, ?_⟩
    · obtain ⟨e, _, he⟩ := hrec ev hev
      rw [he]; rfl
    · rcases hs with hs | hs
      · exact Or.inl hs
      · exact Or.inr hs.1
    · rcases hs with hs | hs
      · rw [hs, hcount]; exact Nat.zero_le _
      · rw [hs.1, List.count_append, hcount]; simp
    · intro hmem sched' s' hr'
      rcases hs with hs | hs
      · rw [hs] at hmem; exact absurd hmem hno
      · exact (filter_done_run src sched' s s' hs.2 hr').2
  · have hi := reach_idle src _ sched s hc hr
    have hd : s.delivered = [] := hi.2.2.2.2.2.1
    refine ⟨⟨[], by simp, Or.inl hd⟩, by simp [hd], ?_⟩
    intro hmem
    rw [hd] at hmem
    simp at hmem

/-- Witness of C3 on the scenario of the spec: the full schedule delivers the
two matching records and then the end-of-stream event, once. -/
theorem C3_witness :
    run scenarioSource (fullSchedule scenarioWatcher.expectedPaths [[evA, evC, evB]])
        (start (NewFileWatcher scenarioSource 768 ["/tmp/a", "/tmp/b"])) =
      some (scenarioAfter (fullSchedule scenarioWatcher.expectedPaths [[evA, evC, evB]])) ∧
    (scenarioAfter (fullSchedule scenarioWatcher.expectedPaths [[evA, evC, evB]])).delivered =
      [wrapEvent evA, wrapEvent evB, eofEvent] ∧
    (scenarioAfter (fullSchedule scenarioWatcher.expectedPaths
      [[evA, evC, evB]])).delivered.count eofEvent ≤ 1 :=
  ⟨by decide, by decide,
    (C3_eof_at_most_once_and_last scenarioSource 768 ["/tmp/a", "/tmp/b"]
      (fullSchedule scenarioWatcher.expectedPaths [[evA, evC, evB]]) _ (by decide)).2.1⟩

/-- C10: every event delivered on `C` is either a record of the source wrapped
unchanged with `Eof = false`, or the sentinel with `Eof = true` and the zero
`InotifyEvent`; so `Eof` is true exactly for the sentinel. -/
theorem C10_two_event_shapes (src : Source) (mask : Nat) (files : List String)
    (sched : List Action) (s : State)
    (hr : run src sched (start (NewFileWatcher src mask files)) = some s) :
    ∀ ev, ev ∈ s.delivered →
      ((∃ e, e ∈ readLog src s.reads ∧ ev = { InotifyEvent := e, Eof := false }) ∨
        ev = { InotifyEvent := { Wd := 0, Name := "", Mask := 0 }, Eof := true }) ∧
      (ev.Eof = true ↔
        ev = { InotifyEvent := { Wd := 0, Name := "", Mask := 0 }, Eof := true }) := by
  intro ev hev
  have hshape : (∃ e, e ∈ readLog src s.reads ∧ ev = { InotifyEvent := e, Eof := false }) ∨
      ev = { InotifyEvent := { Wd := 0, Name := "", Mask := 0 }, Eof := true } := by
    by_cases hc : (NewFileWatcher src mask files).err = none
    · obtain ⟨_, h2, h3, _⟩ := reach_inv src mask files sched s hc hr
      rcases delivered_mem s h3 ev hev with h | h
      · exact Or.inr h
      · exact Or.inl (internal_mem src s h2 ev ((mem_keep _ _ _).mp h).1)
    · have hi := reach_idle src _ sched s hc hr
      rw [hi.2.2.2.2.2.1] at hev
      simp at hev
  refine ⟨hshape, ?_⟩
  constructor
  · intro h
    rcases hshape with ⟨e, _, he⟩ | he
    · rw [he] at h; simp at h
    · exact he
  · intro h
    rw [h]

/-- Witness of C10 on the scenario of the spec, after the full schedule. -/
theorem C10_witness :
    run scenarioSource (fullSchedule scenarioWatcher.expectedPaths [[evA, evC, evB]])
        (start (NewFileWatcher scenarioSource 768 ["/tmp/a", "/tmp/b"])) =
      some (scenarioAfter (fullSchedule scenarioWatcher.expectedPaths [[evA, evC, evB]])) ∧
    ∀ ev, ev ∈ (scenarioAfter (fullSchedule scenarioWatcher.expectedPaths
        [[evA, evC, evB]])).delivered →
      (ev.Eof = true ↔
        ev = { InotifyEvent := { Wd := 0, Name := "", Mask := 0 }, Eof := true }) :=
  ⟨by decide, fun ev hev =>
    ((C10_two_event_shapes scenarioSource 768 ["/tmp/a", "/tmp/b"]
      (fullSchedule scenarioWatcher.expectedPaths [[evA, evC, evB]]) _ (by decide)) ev hev).2⟩

/-! ## Construction: failure, registrations, expected paths -/

theorem cancelled_step (src : Source) (a : Action) (s s' : State)
    (h : s.cancelled = true) (hs : step src a s = some s') : s'.cancelled = true := by
  obtain ⟨m, c, r, cl, rp, fp, cw, int, del, wg, w⟩ := s
  simp only at h
  subst h
  cases a <;> simp only [step, State.returned, relayNext, afterRecv] at hs <;>
    (repeat' (split at hs)) <;> cases hs <;> rfl

/-- C4: when opening the source fails, or when the registration of the path at
index `k` fails after the earlier ones succeeded, `NewFileWatcher` returns that
very error and no watcher, has cancelled the child context, has issued the
registrations of the first `n` paths only (`n = 0`, respectively `n = k + 1`),
and has started no stage: under every schedule no `Read` is made, nothing is
closed, nothing is sent on either channel, and the caller has no watcher to
receive from or to wait on. -/
theorem C4_failed_construction_starts_nothing (src : Source) (mask : Nat)
    (files : List String) (err : Error) (n : Nat)
    (h : (src.openErr = some err ∧ n = 0) ∨
      (src.openErr = none ∧ ∃ k f, n = k + 1 ∧ files[k]? = some f ∧
        (∀ j g, j < k → files[j]? = some g → src.addWatch j (filepathDir g) mask = none) ∧
        src.addWatch k (filepathDir f) mask = some err)) :
    (NewFileWatcher src mask files).err = some err ∧
    (NewFileWatcher src mask files).cancelled = true ∧
    (NewFileWatcher src mask files).watches =
      (files.take n).map (fun f => (filepathDir f, mask)) ∧
    ∀ sched s, run src sched (start (NewFileWatcher src mask files)) = some s →
      s.cancelled = true ∧ s.relay = RelayPc.notStarted ∧ s.filter = FilterPc.notStarted ∧
      s.reads = 0 ∧ s.closes = 0 ∧ s.internal = [] ∧ s.delivered = [] ∧ s.wg = 0 ∧
      step src Action.callerRecv s = none ∧ step src Action.waitForStop s = none := by
  have hc : (NewFileWatcher src mask files).err = some err ∧
      (NewFileWatcher src mask files).cancelled = true ∧
      (NewFileWatcher src mask files).watches =
        (files.take n).map (fun f => (filepathDir f, mask)) := by
    rcases h with ⟨ho, hn⟩ | ⟨ho, k, f, hn, hk, hprev, hfail⟩
    · subst hn
      simp [NewFileWatcher, ho]
    · subst hn
      simp only [NewFileWatcher, ho]
      have := registerLoop_fail src mask files [] GoMap.empty k f err hk
        (fun j g hj hg => by simpa using hprev j g hj hg) (by simpa using hfail)
      simpa using this
  refine ⟨hc.1, hc.2.1, hc.2.2, fun sched s hr => ?_⟩
  have hne : (NewFileWatcher src mask files).err ≠ none := by rw [hc.1]; simp
  have hi := reach_idle src _ sched s hne hr
  have hcl : s.cancelled = true :=
    run_invariant src (fun t => t.cancelled = true) (cancelled_step src) sched _ s
      (by simp [start, hc.2.1]) hr
  obtain ⟨h1, h2, h3, h4, h5, h6, h7, _, _⟩ := hi
  refine ⟨hcl, h1, h2, h3, h4, h5, h6, h7, ?_, ?_⟩
  · simp [step, State.returned, h2]
  · simp [step, State.returned, h2]

/-- Witness of C4: three paths, the second registration fails. -/
theorem C4_witness :
    ((rejectingSource 1 "no space left on device").openErr =
        some "no space left on device" ∧ 2 = 0 ∨
      (rejectingSource 1 "no space left on device").openErr = none ∧
        ∃ k f, 2 = k + 1 ∧ ["/tmp/a", "/etc/b", "/var/c"][k]? = some f ∧
          (∀ j g, j < k → ["/tmp/a", "/etc/b", "/var/c"][j]? = some g →
            (rejectingSource 1 "no space left on device").addWatch j (filepathDir g) 768 =
              none) ∧
          (rejectingSource 1 "no space left on device").addWatch k (filepathDir f) 768 =
            some "no space left on device") ∧
    (NewFileWatcher (rejectingSource 1 "no space left on device") 768
      ["/tmp/a", "/etc/b", "/var/c"]).err = some "no space left on device" ∧
    (NewFileWatcher (rejectingSource 1 "no space left on device") 768
      ["/tmp/a", "/etc/b", "/var/c"]).watches = [("/tmp", 768), ("/etc", 768)] :=
  have hyp : (rejectingSource 1 "no space left on device").openErr =
        some "no space left on device" ∧ 2 = 0 ∨
      (rejectingSource 1 "no space left on device").openErr = none ∧
        ∃ k f, 2 = k + 1 ∧ ["/tmp/a", "/etc/b", "/var/c"][k]? = some f ∧
          (∀ j g, j < k → ["/tmp/a", "/etc/b", "/var/c"][j]? = some g →
            (rejectingSource 1 "no space left on device").addWatch j (filepathDir g) 768 =
              none) ∧
          (rejectingSource 1 "no space left on device").addWatch k (filepathDir f) 768 =
            some "no space left on device" :=
    Or.inr ⟨rfl, 1, "/etc/b", rfl, rfl,
      fun j g hj _ => by
        have : j = 0 := by omega
        subst this
        simp [rejectingSource],
      by simp [rejectingSource]⟩
  ⟨hyp,
    (C4_failed_construction_starts_nothing (rejectingSource 1 "no space left on device") 768
      ["/tmp/a", "/etc/b", "/var/c"] "no space left on device" 2 hyp).1,
    by decide⟩

/-- Counterexample to C5 as stated: the paths `/tmp/a` and `/tmp/b` share the
parent directory `/tmp`, and the constructor registers `/tmp` twice, not once. -/
theorem C5_counterexample :
    (NewFileWatcher scenarioSource 768 ["/tmp/a", "/tmp/b"]).err = none ∧
    filepathDir "/tmp/a" = "/tmp" ∧ filepathDir "/tmp/b" = "/tmp" ∧
    (NewFileWatcher scenarioSource 768 ["/tmp/a", "/tmp/b"]).watches =
      [("/tmp", 768), ("/tmp", 768)] ∧
    ((NewFileWatcher scenarioSource 768 ["/tmp/a", "/tmp/b"]).watches.map Prod.fst).count
      "/tmp" = 2 := by
  decide

/-- C5 (amended): when all registrations succeed, `NewFileWatcher` issues one
`AddWatch` per requested path, in the order of the list, on `filepath.Dir`
of the path and with the caller's mask unchanged. So the directories
registered are exactly the values of `filepath.Dir` over the list, and a
directory is registered as many times as there are requested paths in it. -/
theorem C5_one_registration_per_path (src : Source) (mask : Nat) (files : List String)
    (h : (NewFileWatcher src mask files).err = none) :
    (NewFileWatcher src mask files).watches = files.map (fun f => (filepathDir f, mask)) ∧
    (∀ d, d ∈ (NewFileWatcher src mask files).watches.map Prod.fst ↔
      ∃ f, f ∈ files ∧ filepathDir f = d) ∧
    (∀ w, w ∈ (NewFileWatcher src mask files).watches → w.2 = mask) ∧
    (∀ d, ((NewFileWatcher src mask files).watches.map Prod.fst).count d =
      files.countP (fun f => filepathDir f == d)) := by
  have hw := (newFileWatcher_ok src mask files h).2.1
  refine ⟨hw, fun d => ?_, fun w hmem => ?_, fun d => ?_⟩
  · rw [hw]; simp
  · rw [hw] at hmem
    obtain ⟨f, _, rfl⟩ := List.mem_map.mp hmem
    rfl
  · rw [hw, List.map_map, List.count_eq_countP, List.countP_map]
    rfl

/-- Witness of C5 (amended) on the scenario of the spec. -/
theorem C5_witness :
    (NewFileWatcher scenarioSource 768 ["/tmp/a", "/tmp/b"]).err = none ∧
    (NewFileWatcher scenarioSource 768 ["/tmp/a", "/tmp/b"]).watches =
      ["/tmp/a", "/tmp/b"].map (fun f => (filepathDir f, 768)) :=
  ⟨by decide,
    (C5_one_registration_per_path scenarioSource 768 ["/tmp/a", "/tmp/b"] (by decide)).1⟩

/-- C9: after a successful construction the map of expected paths holds a
string exactly when it is one of the path arguments as supplied (no parent
directory, no cleaned form), although the directories registered are
`filepath.Dir` of the paths; a received record goes on to the send of line 97
exactly when its `Name` is one of the supplied paths and is skipped otherwise.
For the single path `/tmp/./a` the directory `/tmp` is registered and a record
named `/tmp/a` is skipped. -/
theorem C9_expected_paths_are_the_arguments (src : Source) (mask : Nat) (files : List String)
    (h : (NewFileWatcher src mask files).err = none) :
    (∀ p, (NewFileWatcher src mask files).expectedPaths.get p = true ↔ p ∈ files) ∧
    (NewFileWatcher src mask files).watches = files.map (fun f => (filepathDir f, mask)) ∧
    (∀ ev, afterRecv (NewFileWatcher src mask files).expectedPaths ev = FilterPc.offer ev ↔
      ev.Name ∈ files) ∧
    (∀ ev, afterRecv (NewFileWatcher src mask files).expectedPaths ev = FilterPc.select ↔
      ev.Name ∉ files) ∧
    (files = ["/tmp/./a"] →
      (NewFileWatcher src mask files).watches = [("/tmp", mask)] ∧
      ∀ e : InotifyEvent, e.Name = "/tmp/a" →
        afterRecv (NewFileWatcher src mask files).expectedPaths (wrapEvent e) =
          FilterPc.select) := by
  obtain ⟨_, hw, hg⟩ := newFileWatcher_ok src mask files h
  have hoff : ∀ ev, afterRecv (NewFileWatcher src mask files).expectedPaths ev =
      FilterPc.offer ev ↔ ev.Name ∈ files := by
    intro ev
    rw [← hg]
    simp only [afterRecv]
    cases (NewFileWatcher src mask files).expectedPaths.get ev.Name <;> simp
  have hsel : ∀ ev, afterRecv (NewFileWatcher src mask files).expectedPaths ev =
      FilterPc.select ↔ ev.Name ∉ files := by
    intro ev
    rw [← hg]
    simp only [afterRecv]
    cases (NewFileWatcher src mask files).expectedPaths.get ev.Name <;> simp
  refine ⟨hg, hw, hoff, hsel, fun hf => ⟨?_, fun e he => ?_⟩⟩
  · rw [hw, hf]
    have : filepathDir "/tmp/./a" = "/tmp" := by decide
    simp [this]
  · rw [hsel, hf]
    have : (wrapEvent e).Name = "/tmp/a" := he
    rw [this]
    decide

/-- Witness of C9: the single path `/tmp/./a`. -/
theorem C9_witness :
    (NewFileWatcher scenarioSource 768 ["/tmp/./a"]).err = none ∧
    (NewFileWatcher scenarioSource 768 ["/tmp/./a"]).watches = [("/tmp", 768)] ∧
    afterRecv (NewFileWatcher scenarioSource 768 ["/tmp/./a"]).expectedPaths
      (wrapEvent evA) = FilterPc.select :=
  ⟨by decide,
    ((C9_expected_paths_are_the_arguments scenarioSource 768 ["/tmp/./a"]
      (by decide)).2.2.2.2 rfl).1,
    ((C9_expected_paths_are_the_arguments scenarioSource 768 ["/tmp/./a"]
      (by decide)).2.2.2.2 rfl).2 evA rfl⟩

/-! ## Shutdown and join -/

/-- Once both stages have returned, no step changes anything but the caller's
own bookkeeping. -/
theorem both_done_step (src : Source) (a : Action) (s s' : State)
    (h1 : s.relay = RelayPc.done) (h2 : s.filter = FilterPc.done)
    (hs : step src a s = some s') :
    s'.relay = RelayPc.done ∧ s'.filter = FilterPc.done ∧ s'.delivered = s.delivered ∧
      s'.wg = s.wg := by
  obtain ⟨m, c, r, cl, rp, fp, cw, int, del, wg, w⟩ := s
  simp only at h1 h2
  subst h1 h2
  cases a <;> simp only [step, State.returned, relayNext, afterRecv] at hs <;>
    (repeat' (split at hs)) <;> cases hs <;> simp_all

theorem both_done_run (src : Source) (sched : List Action) (s s' : State)
    (h1 : s.relay = RelayPc.done) (h2 : s.filter = FilterPc.done)
    (hr : run src sched s = some s') :
    s'.relay = RelayPc.done ∧ s'.filter = FilterPc.done ∧ s'.delivered = s.delivered ∧
      s'.wg = s.wg :=
  run_invariant src
    (fun t => t.relay = RelayPc.done ∧ t.filter = FilterPc.done ∧
      t.delivered = s.delivered ∧ t.wg = s.wg)
    (fun a t t' ht hs => by
      obtain ⟨k1, k2, k3, k4⟩ := both_done_step src a t t' ht.1 ht.2.1 hs
      exact ⟨k1, k2, k3.trans ht.2.2.1, k4.trans ht.2.2.2⟩)
    sched s s' ⟨h1, h2, rfl, rfl⟩ hr

theorem relayLive_nonneg (pc : RelayPc) : 0 ≤ relayLive pc := by
  cases pc <;> simp [relayLive]

theorem filterLive_nonneg (pc : FilterPc) : 0 ≤ filterLive pc := by
  cases pc <;> simp [filterLive]

/-- The counter of the wait group is zero, with a watcher returned, only
when both stages have returned. -/
theorem wait_enabled (src : Source) (s : State) (h : CtlInv s)
    (hw : (step src Action.waitForStop s).isSome = true) :
    s.relay = RelayPc.done ∧ s.filter = FilterPc.done := by
  obtain ⟨m, c, r, cl, rp, fp, cw, int, del, wg, w⟩ := s
  have hwg := h.2.2.2.2.2.2.2.2.2.2.2
  have hns := h.1
  simp only [step, State.returned] at hw
  split at hw
  · next hcond =>
    obtain ⟨hret, hz⟩ := hcond
    simp only at hwg hns hz hret
    rw [hz] at hwg
    have hr := relayLive_nonneg rp
    have hf := filterLive_nonneg fp
    have hr0 : relayLive rp = 0 := by omega
    have hf0 : filterLive fp = 0 := by omega
    constructor
    · cases rp <;> first | rfl | exact absurd rfl hns | (simp [relayLive] at hr0)
    · cases fp <;> first | rfl | (simp at hret; done) | (simp [filterLive] at hf0)
  · simp at hw

theorem waitInv_step (src : Source) (a : Action) (s s' : State)
    (h : WaitInv s) (hs : step src a s = some s') : WaitInv s' := by
  refine ⟨ctlInv_step src a s s' h.1 hs, fun hw => ?_⟩
  by_cases h0 : 0 < s.waits
  · obtain ⟨k1, k2⟩ := h.2 h0
    obtain ⟨k3, k4, _, _⟩ := both_done_step src a s s' k1 k2 hs
    exact ⟨k3, k4⟩
  · have ha : a = Action.waitForStop := by
      obtain ⟨m, c, r, cl, rp, fp, cw, int, del, wg, w⟩ := s
      simp only at h0
      cases a <;> simp only [step, State.returned, relayNext, afterRecv] at hs <;>
        (repeat' (split at hs)) <;> cases hs <;> first | rfl | exact absurd hw h0
    subst ha
    have hen : (step src Action.waitForStop s).isSome = true := by rw [hs]; rfl
    obtain ⟨k1, k2⟩ := wait_enabled src s h.1 hen
    obtain ⟨k3, k4, _, _⟩ := both_done_step src _ s s' k1 k2 hs
    exact ⟨k3, k4⟩

/-- C8: the counter of the wait group is the number of stages started and not
yet returned (one `Add(1)` before each `go`, one deferred `Done()` at each
return); a call of `WaitForStop` can return only when both stages have
returned; after a call has returned, no schedule delivers a further event on
`C`, and every further call of `WaitForStop` can return at once. -/
theorem C8_wait_for_stop_joins_both_stages (src : Source) (mask : Nat) (files : List String)
    (sched : List Action) (s : State)
    (hr : run src sched (start (NewFileWatcher src mask files)) = some s) :
    s.wg = relayLive s.relay + filterLive s.filter ∧
    ((step src Action.waitForStop s).isSome = true →
      s.relay = RelayPc.done ∧ s.filter = FilterPc.done) ∧
    (0 < s.waits →
      s.relay = RelayPc.done ∧ s.filter = FilterPc.done ∧
      ∀ sched' s', run src sched' s = some s' →
        s'.delivered = s.delivered ∧ (step src Action.waitForStop s').isSome = true) := by
  by_cases hc : (NewFileWatcher src mask files).err = none
  · have hw : WaitInv s :=
      run_invariant src WaitInv (waitInv_step src) sched _ s
        ⟨(start_inv src mask files hc).1, by simp [start]⟩ hr
    refine ⟨hw.1.2.2.2.2.2.2.2.2.2.2.2, wait_enabled src s hw.1, fun h0 => ?_⟩
    obtain ⟨k1, k2⟩ := hw.2 h0
    refine ⟨k1, k2, fun sched' s' hr' => ?_⟩
    obtain ⟨k3, k4, k5, k6⟩ := both_done_run src sched' s s' k1 k2 hr'
    refine ⟨k5, ?_⟩
    have hwg : s'.wg = 0 := by
      rw [k6, hw.1.2.2.2.2.2.2.2.2.2.2.2, k1, k2]; rfl
    simp [step, State.returned, k4, hwg]
  · have hi := reach_idle src _ sched s hc hr
    obtain ⟨h1, h2, _, _, _, _, h7, h8, _⟩ := hi
    refine ⟨by rw [h7, h1, h2]; rfl, fun hen => ?_, fun h0 => ?_⟩
    · simp [step, State.returned, h2] at hen
    · omega

/-- Witness of C8 on the scenario of the spec: after the full schedule the
caller waits twice. -/
theorem C8_witness :
    run scenarioSource
        (fullSchedule scenarioWatcher.expectedPaths [[evA, evC, evB]] ++
          [Action.waitForStop, Action.waitForStop])
        (start (NewFileWatcher scenarioSource 768 ["/tmp/a", "/tmp/b"])) =
      some (scenarioAfter (fullSchedule scenarioWatcher.expectedPaths [[evA, evC, evB]] ++
        [Action.waitForStop, Action.waitForStop])) ∧
    (scenarioAfter (fullSchedule scenarioWatcher.expectedPaths [[evA, evC, evB]] ++
        [Action.waitForStop, Action.waitForStop])).waits = 2 ∧
    (scenarioAfter (fullSchedule scenarioWatcher.expectedPaths [[evA, evC, evB]] ++
        [Action.waitForStop, Action.waitForStop])).wg =
      relayLive (scenarioAfter (fullSchedule scenarioWatcher.expectedPaths
        [[evA, evC, evB]] ++ [Action.waitForStop, Action.waitForStop])).relay +
      filterLive (scenarioAfter (fullSchedule scenarioWatcher.expectedPaths
        [[evA, evC, evB]] ++ [Action.waitForStop, Action.waitForStop])).filter :=
  ⟨by decide, by decide,
    (C8_wait_for_stop_joins_both_stages scenarioSource 768 ["/tmp/a", "/tmp/b"]
      (fullSchedule scenarioWatcher.expectedPaths [[evA, evC, evB]] ++
        [Action.waitForStop, Action.waitForStop]) _ (by decide)).1⟩

/-! ## Complete runs without cancellation -/

/-- One record moves through the pipeline at rest. -/
theorem steady_record (src : Source) (s : State) (e : InotifyEvent)
    (rest : List InotifyEvent) (h : Steady s) (hr : s.relay = RelayPc.select e rest) :
    ∃ sched, Action.cancel ∉ sched ∧ ∃ s', run src sched s = some s' ∧ Steady s' ∧
      s'.relay = relayNext rest ∧ s'.reads = s.reads := by
  obtain ⟨m, c, r, cl, rp, fp, cw, int, del, wg, w⟩ := s
  obtain ⟨h1, h2, h3, h4⟩ := h
  simp only at h1 h2 h3 h4 hr
  subst h1 h2 h3 h4 hr
  by_cases hk : m.get e.Name = true
  · refine ⟨[Action.relaySend, Action.filterSend, Action.filterPark, Action.callerRecv],
      by decide, ?_⟩
    have hrp : (relayNext rest).isParked = false := by cases rest <;> rfl
    simp [run, step, afterRecv, wrapEvent, FileEvent.Name, hk, State.returned, Steady, hrp]
  · refine ⟨[Action.relaySend, Action.filterPark], by decide, ?_⟩
    have hrp : (relayNext rest).isParked = false := by cases rest <;> rfl
    simp [run, step, afterRecv, wrapEvent, FileEvent.Name, hk, State.returned, Steady, hrp]

/-- The records of one batch move through the pipeline at rest. -/
theorem steady_records (src : Source) (raw : List InotifyEvent) :
    ∀ s : State, Steady s → s.relay = relayNext raw →
    ∃ sched, Action.cancel ∉ sched ∧ ∃ s', run src sched s = some s' ∧ Steady s' ∧
      s'.relay = RelayPc.read ∧ s'.reads = s.reads := by
  induction raw with
  | nil => intro s h hr; exact ⟨[], by simp, s, rfl, h, hr, rfl⟩
  | cons e rest ih =>
    intro s h hr
    obtain ⟨l1, hl1, s1, hr1, hs1, hp1, hn1⟩ := steady_record src s e rest h hr
    obtain ⟨l2, hl2, s2, hr2, hs2, hp2, hn2⟩ := ih s1 hs1 hp1
    refine ⟨l1 ++ l2, ?_, s2, run_append_of src l1 l2 s s1 s2 hr1 hr2, hs2, hp2, hn2.trans hn1⟩
    simp [hl1, hl2]

/-- A successful `Read` and its records move through the pipeline at rest. -/
theorem steady_batch (src : Source) (s : State) (h : Steady s) (hr : s.relay = RelayPc.read)
    (hok : readOk src s.reads = true) :
    ∃ sched, Action.cancel ∉ sched ∧ ∃ s', run src sched s = some s' ∧ Steady s' ∧
      s'.relay = RelayPc.read ∧ s'.reads = s.reads + 1 := by
  cases hread : src.read s.reads with
  | error e => simp [readOk, hread] at hok
  | ok raw =>
    have h1 : ∃ s1, step src Action.relayRead s = some s1 ∧ Steady s1 ∧
        s1.relay = relayNext raw ∧ s1.reads = s.reads + 1 := by
      obtain ⟨m, c, r, cl, rp, fp, cw, int, del, wg, w⟩ := s
      obtain ⟨k1, k2, k3, k4⟩ := h
      simp only at k1 k2 k3 k4 hr hread
      subst k1 k2 k3 k4 hr
      simp [step, hread, Steady]
    obtain ⟨s1, hs1, hst1, hp1, hn1⟩ := h1
    obtain ⟨l2, hl2, s2, hr2, hs2, hp2, hn2⟩ := steady_records src raw s1 hst1 hp1
    refine ⟨Action.relayRead :: l2, ?_, s2, ?_, hs2, hp2, hn2.trans hn1⟩
    · simp [hl2]
    · simp [run, hs1, hr2]

/-- As long as `Read` succeeds, the pipeline at rest goes on. -/
theorem steady_batches (src : Source) (k : Nat) :
    ∀ s : State, Steady s → s.relay = RelayPc.read →
    (∀ i, i < k → readOk src (s.reads + i) = true) →
    ∃ sched, Action.cancel ∉ sched ∧ ∃ s', run src sched s = some s' ∧ Steady s' ∧
      s'.relay = RelayPc.read ∧ s'.reads = s.reads + k := by
  induction k with
  | zero => intro s h hr _; exact ⟨[], by simp, s, rfl, h, hr, rfl⟩
  | succ k ih =>
    intro s h hr hok
    obtain ⟨l1, hl1, s1, hr1, hs1, hp1, hn1⟩ :=
      steady_batch src s h hr (by simpa using hok 0 (Nat.succ_pos k))
    obtain ⟨l2, hl2, s2, hr2, hs2, hp2, hn2⟩ := ih s1 hs1 hp1 (fun i hi => by
      rw [hn1]
      have := hok (i + 1) (Nat.succ_lt_succ hi)
      simpa [Nat.add_assoc, Nat.add_comm 1 i] using this)
    refine ⟨l1 ++ l2, ?_, s2, run_append_of src l1 l2 s s1 s2 hr1 hr2, hs2, hp2, ?_⟩
    · simp [hl1, hl2]
    · rw [hn2, hn1]; omega

/-- A failing `Read` shuts the pipeline at rest down: both stages return. -/
theorem steady_finish (src : Source) (s : State) (h : Steady s) (hr : s.relay = RelayPc.read)
    (herr : readOk src s.reads = false) :
    ∃ s', run src [Action.relayRead, Action.filterSend] s = some s' ∧
      s'.relay = RelayPc.done ∧ s'.filter = FilterPc.done ∧ s'.cancelled = false := by
  cases hread : src.read s.reads with
  | ok raw => simp [readOk, hread] at herr
  | error e =>
    obtain ⟨m, c, r, cl, rp, fp, cw, int, del, wg, w⟩ := s
    obtain ⟨k1, k2, k3, k4⟩ := h
    simp only at k1 k2 k3 k4 hr hread
    subst k1 k2 k3 k4 hr
    simp [run, step, hread]

/-- From the start of a successful construction the pipeline comes to rest. -/
theorem steady_start (src : Source) (mask : Nat) (files : List String)
    (h : (NewFileWatcher src mask files).err = none) :
    ∃ s', run src [Action.spawnFilter, Action.filterPark, Action.callerRecv]
        (start (NewFileWatcher src mask files)) = some s' ∧
      Steady s' ∧ s'.relay = RelayPc.read ∧ s'.reads = 0 := by
  have hc := (newFileWatcher_ok src mask files h).1
  simp [run, step, start, h, hc, State.returned, RelayPc.isParked, Steady]

/-- When the first failing `Read` is the `n`-th, some schedule without
cancellation, in which the caller receives what is offered, ends with both
stages returned. -/
theorem exists_complete_run (src : Source) (mask : Nat) (files : List String) (n : Nat)
    (h : (NewFileWatcher src mask files).err = none)
    (hok : AllOk src n) (herr : readOk src n = false) :
    ∃ sched, Action.cancel ∉ sched ∧ ∃ s,
      run src sched (start (NewFileWatcher src mask files)) = some s ∧
      s.relay = RelayPc.done ∧ s.filter = FilterPc.done ∧ s.cancelled = false := by
  obtain ⟨s0, hr0, hs0, hp0, hn0⟩ := steady_start src mask files h
  obtain ⟨l1, hl1, s1, hr1, hs1, hp1, hn1⟩ := steady_batches src n s0 hs0 hp0
    (fun i hi => by rw [hn0]; simpa using hok i hi)
  have hn : s1.reads = n := by rw [hn1, hn0]; omega
  obtain ⟨s2, hr2, k1, k2, k3⟩ := steady_finish src s1 hs1 hp1 (by rw [hn]; exact herr)
  refine ⟨[Action.spawnFilter, Action.filterPark, Action.callerRecv] ++
    (l1 ++ [Action.relayRead, Action.filterSend]), ?_, s2, ?_, k1, k2, k3⟩
  · simp [hl1]
  · exact run_append_of src _ _ _ s0 s2 hr0 (run_append_of src _ _ s0 s1 s2 hr1 hr2)

theorem nocancel_step (src : Source) (a : Action) (s s' : State) (ha : a ≠ Action.cancel)
    (hs : step src a s = some s') : s'.cancelled = s.cancelled := by
  obtain ⟨m, c, r, cl, rp, fp, cw, int, del, wg, w⟩ := s
  cases a <;> simp only [step, State.returned, relayNext, afterRecv] at hs <;>
    (repeat' (split at hs)) <;> cases hs <;> first | rfl | exact absurd rfl ha

theorem nocancel_run (src : Source) (sched : List Action) :
    ∀ s s' : State, Action.cancel ∉ sched → run src sched s = some s' →
      s'.cancelled = s.cancelled := by
  induction sched with
  | nil => intro s s' _ h; simp only [run, Option.some.injEq] at h; rw [h]
  | cons a l ih =>
    intro s s' hmem h
    obtain ⟨s1, h1, h2⟩ := run_cons src a l s s' h
    have ha : a ≠ Action.cancel := fun e => hmem (by simp [e])
    have hl : Action.cancel ∉ l := fun e => hmem (by simp [e])
    rw [ih s1 s' hl h2, nocancel_step src a s s1 ha h1]

theorem readLog_error (src : Source) (k : Nat) (h : readOk src k = false) :
    readLog src (k + 1) = readLog src k := by
  simp only [readLog, readBatch]
  simp only [readOk] at h
  split <;> simp_all

/-- What is on the internal channel is a prefix of what the source returned. -/
theorem internal_le_log (src : Source) (s : State) (h : RelayInv src s) :
    s.internal <+: (readLog src s.reads).map wrapEvent := by
  obtain ⟨m, c, r, cl, rp, fp, cw, int, del, wg, w⟩ := s
  cases rp <;> simp only [RelayInv] at h ⊢
  · rw [h.2.2]
  · exact prefix_of_append_eq h.2.2
  · exact prefix_of_append_eq h.2.2
  · exact h.2.2
  · rcases h with h | h
    · exact h.2.2
    · rw [h.2.1]

/-- Without cancellation a returned filter has delivered every kept record of
the source and then the end-of-stream event; the relay has returned through
the failing `Read`. -/
theorem complete_output (src : Source) (s : State) (h1 : CtlInv s) (h2 : RelayInv src s)
    (h3 : FilterInv s) (hc : s.cancelled = false) (hf : s.filter = FilterPc.done) :
    s.relay = RelayPc.done ∧ s.closes = 1 ∧
    ∃ k, s.reads = k + 1 ∧ AllOk src k ∧ readOk src k = false ∧
      s.delivered = keep s.expectedPaths ((readLog src k).map wrapEvent) ++ [eofEvent] := by
  obtain ⟨m, c, r, cl, rp, fp, cw, int, del, wg, w⟩ := s
  simp only at hc hf
  subst hc hf
  have hcl : 0 < cl := by
    have := h1.2.2.2.2.2.1 rfl
    simpa using this
  have hrd : rp = RelayPc.done := (h1.2.2.2.2.2.2.1 hcl).1
  subst hrd
  simp only [RelayInv] at h2
  simp only [FilterInv] at h3
  rcases h2 with h2 | h2
  · omega
  · obtain ⟨k, hk, hok, herr⟩ := h2.2.2
    rcases h3 with h3 | h3
    · simp at h3
    · refine ⟨rfl, h2.1, k, hk, hok, herr, ?_⟩
      have hk' : r = k + 1 := hk
      have hint : int = (readLog src r).map wrapEvent := h2.2.1
      have hdel : del = keep m int ++ [eofEvent] := h3
      show del = keep m ((readLog src k).map wrapEvent) ++ [eofEvent]
      rw [hdel, hint, hk', readLog_error src k herr]

theorem keep_map_wrap (m : GoMap) (files : List String)
    (hg : ∀ p, m.get p = true ↔ p ∈ files) (l : List InotifyEvent) :
    keep m (l.map wrapEvent) = (l.filter (fun e => decide (e.Name ∈ files))).map wrapEvent := by
  induction l with
  | nil => rfl
  | cons e rest ih =>
    have he : m.get (wrapEvent e).Name = decide (e.Name ∈ files) := by
      have := hg e.Name
      simp only [wrapEvent, FileEvent.Name]
      by_cases hmem : e.Name ∈ files
      · simp [hmem, this.mpr hmem]
      · have hne : m.get e.Name ≠ true := fun h => hmem (this.mp h)
        simp [hmem, hne]
    simp only [keep] at ih
    simp only [keep, List.map_cons, List.filter_cons, he]
    split
    · rw [List.map_cons, ih]
    · exact ih

/-- The log of a source that returns `batches` and then fails. -/
theorem readLog_batches (src : Source) (batches : List (List InotifyEvent)) (err : Error)
    (hread : ∀ i, src.read i =
      match batches[i]? with
      | some raw => Except.ok raw
      | none => Except.error err) (n : Nat) :
    readLog src n = (batches.take n).flatten := by
  induction n with
  | zero => simp [readLog]
  | succ n ih =>
    rw [readLog, ih, List.take_succ, List.flatten_append]
    congr 1
    simp only [readBatch, hread n]
    cases batches[n]? <;> simp

theorem readOk_batches (src : Source) (batches : List (List InotifyEvent)) (err : Error)
    (hread : ∀ i, src.read i =
      match batches[i]? with
      | some raw => Except.ok raw
      | none => Except.error err) (i : Nat) :
    readOk src i = true ↔ i < batches.length := by
  simp only [readOk, hread i]
  by_cases h : i < batches.length
  · simp [List.getElem?_eq_getElem h, h]
  · simp [List.getElem?_eq_none (Nat.le_of_not_lt h), h]

theorem take_flatten_le {α : Type} (l : List (List α)) (n : Nat) :
    (l.take n).flatten <+: l.flatten := by
  conv => rhs; rw [← List.take_append_drop n l, List.flatten_append]
  exact List.prefix_append _ _

/-- The output of a successful construction fed by a source that returns
`batches` and then fails, in a state reached without cancellation. -/
theorem uncancelled_output (src : Source) (mask : Nat) (files : List String)
    (batches : List (List InotifyEvent)) (err : Error)
    (hc : (NewFileWatcher src mask files).err = none)
    (hread : ∀ i, src.read i =
      match batches[i]? with
      | some raw => Except.ok raw
      | none => Except.error err)
    (sched : List Action) (s : State) (hn : Action.cancel ∉ sched)
    (hr : run src sched (start (NewFileWatcher src mask files)) = some s) :
    s.delivered <+:
      (batches.flatten.filter (fun e => decide (e.Name ∈ files))).map wrapEvent ++ [eofEvent] ∧
    (s.filter = FilterPc.done →
      s.delivered =
        (batches.flatten.filter (fun e => decide (e.Name ∈ files))).map wrapEvent ++
          [eofEvent]) := by
  obtain ⟨h1, h2, h3, h4⟩ := reach_inv src mask files sched s hc hr
  obtain ⟨hcan, _, hg⟩ := newFileWatcher_ok src mask files hc
  have hcn : s.cancelled = false := by
    rw [nocancel_run src sched _ s hn hr]
    simp [start, hcan]
  have hg' : ∀ p, s.expectedPaths.get p = true ↔ p ∈ files := by rw [h4]; exact hg
  have hfull : s.filter = FilterPc.done →
      s.delivered =
        (batches.flatten.filter (fun e => decide (e.Name ∈ files))).map wrapEvent ++
          [eofEvent] := by
    intro hf
    obtain ⟨_, _, k, _, hok, herr, hd⟩ := complete_output src s h1 h2 h3 hcn hf
    have hk1 : batches.length ≤ k := by
      by_contra hlt
      have := (readOk_batches src batches err hread k).mpr (Nat.lt_of_not_le hlt)
      rw [this] at herr
      exact absurd herr (by simp)
    have hk2 : k ≤ batches.length := by
      by_contra hlt
      have := hok batches.length (Nat.lt_of_not_le hlt)
      have := (readOk_batches src batches err hread batches.length).mp this
      omega
    have hk : k = batches.length := Nat.le_antisymm hk2 hk1
    rw [hd, hk, readLog_batches src batches err hread, List.take_length,
      keep_map_wrap _ files hg']
  refine ⟨?_, hfull⟩
  obtain ⟨recs, hp, hs⟩ := delivered_shape s h3
  rcases hs with hs | hs
  · rw [hs]
    have hp2 : keep s.expectedPaths s.internal <+:
        keep s.expectedPaths ((readLog src s.reads).map wrapEvent) :=
      (internal_le_log src s h2).filter _
    rw [keep_map_wrap _ files hg', readLog_batches src batches err hread] at hp2
    have hp3 : ((batches.take s.reads).flatten.filter
        (fun e => decide (e.Name ∈ files))).map wrapEvent <+:
        (batches.flatten.filter (fun e => decide (e.Name ∈ files))).map wrapEvent :=
      ((take_flatten_le batches s.reads).filter _).map _
    exact ((hp.trans hp2).trans hp3).trans (List.prefix_append _ _)
  · rw [hfull hs.2]

/-- Without cancellation the pipeline is never stuck: until both stages have
returned, a step of a stage or a receive by the caller is enabled. -/
theorem progress_enabled (src : Source) (s : State) (h : CtlInv s)
    (hc : s.cancelled = false) (hnd : ¬(s.relay = RelayPc.done ∧ s.filter = FilterPc.done)) :
    ∃ a, a ∈ progressActions ∧ (step src a s).isSome = true := by
  obtain ⟨m, c, r, cl, rp, fp, cw, int, del, wg, w⟩ := s
  simp only [CtlInv] at h
  obtain ⟨h1, h2, h3, h4, h5, h5', h6, h7, h8, h9, h10, h11⟩ := h
  simp only at hc hnd
  subst hc
  cases rp <;> cases fp <;> cases cw <;>
    first
      | exact absurd rfl h1
      | (exfalso; apply hnd; constructor <;> rfl)
      | (exfalso; simp_all [RelayPc.isParked, FilterPc.isParked]; done)
      | (refine ⟨Action.spawnFilter, by decide, ?_⟩; simp [step]; done)
      | (refine ⟨Action.relayRead, by decide, ?_⟩; simp only [step]; split <;> rfl)
      | (refine ⟨Action.relaySend, by decide, ?_⟩; simp [step]; done)
      | (refine ⟨Action.filterRecv, by decide, ?_⟩; simp [step]; done)
      | (refine ⟨Action.filterSend, by decide, ?_⟩; simp [step]; done)
      | (refine ⟨Action.callerRecv, by decide, ?_⟩; simp [step, State.returned]; done)
      | (refine ⟨Action.relayPark, by decide, ?_⟩; simp [step]; done)
      | (refine ⟨Action.filterRecvClosed, by decide, ?_⟩
         have := h5 rfl
         simp_all [step])

theorem batchesWeight_some (batches : List (List InotifyEvent)) (r : Nat)
    (raw : List InotifyEvent) (h : batches[r]? = some raw) :
    batchesWeight batches r = 3 + 5 * raw.length + batchesWeight batches (r + 1) := by
  obtain ⟨hlt, hget⟩ := List.getElem?_eq_some_iff.mp h
  simp only [batchesWeight]
  rw [List.drop_eq_getElem_cons hlt, hget]
  simp

theorem batchesWeight_none (batches : List (List InotifyEvent)) (r : Nat)
    (h : batches[r]? = none) :
    batchesWeight batches r = 0 ∧ batchesWeight batches (r + 1) = 0 := by
  have hle : batches.length ≤ r := List.getElem?_eq_none_iff.mp h
  simp only [batchesWeight]
  rw [List.drop_eq_nil_of_le hle, List.drop_eq_nil_of_le (Nat.le_succ_of_le hle)]
  simp

theorem batchesWeight_ok (src : Source) (batches : List (List InotifyEvent)) (err : Error)
    (hread : ∀ i, src.read i =
      match batches[i]? with
      | some raw => Except.ok raw
      | none => Except.error err)
    (r : Nat) (raw : List InotifyEvent) (h : src.read r = Except.ok raw) :
    batchesWeight batches r = 3 + 5 * raw.length + batchesWeight batches (r + 1) := by
  rw [hread r] at h
  cases hb : batches[r]? with
  | none => simp [hb] at h
  | some b =>
    simp only [hb, Except.ok.injEq] at h
    subst h
    exact batchesWeight_some batches r b hb

theorem batchesWeight_err (src : Source) (batches : List (List InotifyEvent)) (err : Error)
    (hread : ∀ i, src.read i =
      match batches[i]? with
      | some raw => Except.ok raw
      | none => Except.error err)
    (r : Nat) (e : Error) (h : src.read r = Except.error e) :
    batchesWeight batches (r + 1) ≤ batchesWeight batches r := by
  rw [hread r] at h
  cases hb : batches[r]? with
  | none =>
    obtain ⟨h1, h2⟩ := batchesWeight_none batches r hb
    rw [h1, h2]
  | some b => simp [hb] at h

set_option maxHeartbeats 4000000 in
/-- Every step of a stage and every receive of the caller uses up work. -/
theorem workLeft_step (src : Source) (batches : List (List InotifyEvent)) (err : Error)
    (hread : ∀ i, src.read i =
      match batches[i]? with
      | some raw => Except.ok raw
      | none => Except.error err)
    (a : Action) (s s' : State) (ha : a ∈ progressActions)
    (hs : step src a s = some s') : workLeft batches s' < workLeft batches s := by
  obtain ⟨m, c, r, cl, rp, fp, cw, int, del, wg, w⟩ := s
  cases a <;> simp only [step, State.returned, relayNext, afterRecv] at hs <;>
    (repeat' (split at hs)) <;> cases hs <;>
    first
      | (simp [progressActions] at ha; done)
      | (simp [workLeft, relayWeight, filterWeight]; done)
      | (simp [workLeft, relayWeight, filterWeight]; omega)
      | (simp_all [workLeft, relayWeight, filterWeight]; done)
      | (simp_all [workLeft, relayWeight, filterWeight]; omega)
      | (have hw := batchesWeight_ok src batches err hread _ _ (by assumption)
         simp only [workLeft, relayWeight, filterWeight, List.length_nil, List.length_cons] at hw ⊢
         omega)
      | (have hw := batchesWeight_err src batches err hread _ _ (by assumption)
         simp only [workLeft, relayWeight, filterWeight] at hw ⊢
         omega)

theorem workLeft_run (src : Source) (batches : List (List InotifyEvent)) (err : Error)
    (hread : ∀ i, src.read i =
      match batches[i]? with
      | some raw => Except.ok raw
      | none => Except.error err)
    (sched : List Action) :
    ∀ s s' : State, (∀ a, a ∈ sched → a ∈ progressActions) → run src sched s = some s' →
      sched.length + workLeft batches s' ≤ workLeft batches s := by
  induction sched with
  | nil => intro s s' _ h; simp only [run, Option.some.injEq] at h; rw [h]; simp
  | cons a l ih =>
    intro s s' hmem h
    obtain ⟨s1, h1, h2⟩ := run_cons src a l s s' h
    have k1 := workLeft_step src batches err hread a s s1 (hmem a (by simp)) h1
    have k2 := ih s1 s' (fun b hb => hmem b (by simp [hb])) h2
    simp only [List.length_cons]
    omega

/-- C2: for a successful construction and a source that returns the given
batches and then fails, in every schedule without cancellation the sequence
delivered on `C` is a prefix of: the records of the batches whose `Name` is
among the requested paths, each wrapped unchanged with `Eof = false`, in
source order and once each, followed by one end-of-stream event; it is the
whole of it once both stages have returned. Such a schedule exists; and
every schedule gets there when the caller keeps receiving: without
cancellation some step of a stage or a receive of the caller is enabled until
both stages have returned, and the number of such steps is bounded. -/
theorem C2_uncancelled_output_is_filtered_stream (src : Source) (mask : Nat)
    (files : List String) (batches : List (List InotifyEvent)) (err : Error)
    (hc : (NewFileWatcher src mask files).err = none)
    (hread : ∀ i, src.read i =
      match batches[i]? with
      | some raw => Except.ok raw
      | none => Except.error err) :
    (∀ sched s, Action.cancel ∉ sched →
      run src sched (start (NewFileWatcher src mask files)) = some s →
      s.delivered <+:
        (batches.flatten.filter (fun e => decide (e.Name ∈ files))).map wrapEvent ++
          [eofEvent] ∧
      (s.relay = RelayPc.done ∧ s.filter = FilterPc.done →
        s.delivered =
          (batches.flatten.filter (fun e => decide (e.Name ∈ files))).map wrapEvent ++
            [eofEvent])) ∧
    (∃ sched s, Action.cancel ∉ sched ∧
      run src sched (start (NewFileWatcher src mask files)) = some s ∧
      s.relay = RelayPc.done ∧ s.filter = FilterPc.done ∧
      s.delivered =
        (batches.flatten.filter (fun e => decide (e.Name ∈ files))).map wrapEvent ++
          [eofEvent]) ∧
    (∀ sched s, Action.cancel ∉ sched →
      run src sched (start (NewFileWatcher src mask files)) = some s →
      ¬(s.relay = RelayPc.done ∧ s.filter = FilterPc.done) →
      ∃ a, a ∈ progressActions ∧ (step src a s).isSome = true) ∧
    (∀ sched s, (∀ a, a ∈ sched → a ∈ progressActions) →
      run src sched (start (NewFileWatcher src mask files)) = some s →
      sched.length ≤ 7 + batchesWeight batches 0) := by
  refine ⟨?_, ?_, ?_, ?_⟩
  · intro sched s hn hr
    obtain ⟨k1, k2⟩ := uncancelled_output src mask files batches err hc hread sched s hn hr
    exact ⟨k1, fun hd => k2 hd.2⟩
  rotate_left
  · intro sched s hn hr hnd
    obtain ⟨h1, _, _, _⟩ := reach_inv src mask files sched s hc hr
    have hcn : s.cancelled = false := by
      rw [nocancel_run src sched _ s hn hr]
      simp [start, (newFileWatcher_ok src mask files hc).1]
    exact progress_enabled src s h1 hcn hnd
  · intro sched s hp hr
    have := workLeft_run src batches err hread sched _ s hp hr
    have h0 : workLeft batches (start (NewFileWatcher src mask files)) =
        7 + batchesWeight batches 0 := by
      simp [workLeft, start, hc, relayWeight, filterWeight]
    omega
  · have hok : AllOk src batches.length :=
      fun i hi => (readOk_batches src batches err hread i).mpr hi
    have herr : readOk src batches.length = false := by
      cases h : readOk src batches.length with
      | false => rfl
      | true =>
        have := (readOk_batches src batches err hread batches.length).mp h
        omega
    obtain ⟨sched, hn, s, hr, k1, k2, _⟩ :=
      exists_complete_run src mask files batches.length hc hok herr
    exact ⟨sched, s, hn, hr, k1, k2,
      (uncancelled_output src mask files batches err hc hread sched s hn hr).2 k2⟩

/-- Witness of C2, the scenario of the spec: paths `/tmp/a` and `/tmp/b`,
records for `/tmp/a`, `/tmp/c`, `/tmp/b`; the full schedule delivers
`/tmp/a`, `/tmp/b`, then the end-of-stream event. -/
theorem C2_witness :
    (NewFileWatcher scenarioSource 768 ["/tmp/a", "/tmp/b"]).err = none ∧
    Action.cancel ∉ fullSchedule scenarioWatcher.expectedPaths [[evA, evC, evB]] ∧
    run scenarioSource (fullSchedule scenarioWatcher.expectedPaths [[evA, evC, evB]])
        (start (NewFileWatcher scenarioSource 768 ["/tmp/a", "/tmp/b"])) =
      some (scenarioAfter (fullSchedule scenarioWatcher.expectedPaths [[evA, evC, evB]])) ∧
    (scenarioAfter (fullSchedule scenarioWatcher.expectedPaths [[evA, evC, evB]])).delivered =
      [wrapEvent evA, wrapEvent evB, eofEvent] :=
  ⟨by decide, by decide, by decide,
    (((C2_uncancelled_output_is_filtered_stream scenarioSource 768 ["/tmp/a", "/tmp/b"]
      [[evA, evC, evB]] "closed" (by decide) (fun _ => rfl)).1
      (fullSchedule scenarioWatcher.expectedPaths [[evA, evC, evB]]) _
      (by decide) (by decide)).2 ⟨by decide, by decide⟩).trans (by decide)⟩

/-! ## Read errors and the internal channel -/

/-- The internal channel is closed exactly when a `Read` has failed, and then
the relay has returned. -/
theorem closes_shape (src : Source) (s : State) (h : RelayInv src s) :
    (s.closes = 0 ∧ AllOk src s.reads) ∨
    (s.closes = 1 ∧ s.relay = RelayPc.done ∧
      ∃ k, s.reads = k + 1 ∧ AllOk src k ∧ readOk src k = false) := by
  obtain ⟨m, c, r, cl, rp, fp, cw, int, del, wg, w⟩ := s
  cases rp <;> simp only [RelayInv] at h ⊢
  · exact Or.inl ⟨h.1, h.2.1⟩
  · exact Or.inl ⟨h.1, h.2.1⟩
  · exact Or.inl ⟨h.1, h.2.1⟩
  · exact Or.inl ⟨h.1, h.2.1⟩
  · rcases h with h | h
    · exact Or.inl ⟨h.1, h.2.1⟩
    · exact Or.inr ⟨h.1, trivial, h.2.2⟩

/-- Once the relay has returned it reads, closes and sends no more. -/
theorem relay_done_step (src : Source) (a : Action) (s s' : State)
    (h : s.relay = RelayPc.done) (hs : step src a s = some s') :
    s'.relay = RelayPc.done ∧ s'.closes = s.closes ∧ s'.reads = s.reads ∧
      s'.internal = s.internal := by
  obtain ⟨m, c, r, cl, rp, fp, cw, int, del, wg, w⟩ := s
  simp only at h
  subst h
  cases a <;> simp only [step, State.returned, relayNext, afterRecv] at hs <;>
    (repeat' (split at hs)) <;> cases hs <;> simp_all

theorem relay_done_run (src : Source) (sched : List Action) (s s' : State)
    (h : s.relay = RelayPc.done) (hr : run src sched s = some s') :
    s'.relay = RelayPc.done ∧ s'.closes = s.closes ∧ s'.reads = s.reads ∧
      s'.internal = s.internal :=
  run_invariant src
    (fun t => t.relay = RelayPc.done ∧ t.closes = s.closes ∧ t.reads = s.reads ∧
      t.internal = s.internal)
    (fun a t t' ht hs => by
      obtain ⟨k1, k2, k3, k4⟩ := relay_done_step src a t t' ht.1 hs
      exact ⟨k1, k2.trans ht.2.1, k3.trans ht.2.2.1, k4.trans ht.2.2.2⟩)
    sched s s' ⟨h, rfl, rfl, rfl⟩ hr

/-- Without cancellation, a returned filter has delivered the end-of-stream
event exactly once, as the last event. -/
theorem complete_eof_once (src : Source) (s : State) (h1 : CtlInv s) (h2 : RelayInv src s)
    (h3 : FilterInv s) (hc : s.cancelled = false) (hf : s.filter = FilterPc.done) :
    s.delivered.count eofEvent = 1 ∧ s.delivered.getLast? = some eofEvent ∧
      (readOk src 0 = false → s.delivered = [eofEvent]) := by
  obtain ⟨_, _, k, _, hok, herr, hd⟩ := complete_output src s h1 h2 h3 hc hf
  have hno : eofEvent ∉ keep s.expectedPaths ((readLog src k).map wrapEvent) := by
    intro hmem
    obtain ⟨e, _, he⟩ := List.mem_map.mp ((mem_keep _ _ _).mp hmem).1
    exact wrapEvent_ne_eof e he
  refine ⟨?_, ?_, fun h0 => ?_⟩
  · rw [hd, List.count_append, List.count_eq_zero.mpr hno]; simp
  · rw [hd]; simp
  · have hk : k = 0 := by
      by_contra hne
      have := hok 0 (Nat.pos_of_ne_zero hne)
      rw [this] at h0
      exact absurd h0 (by simp)
    rw [hd, hk]
    simp [readLog, keep]

/-- C6: the internal channel is closed at most once; it is closed exactly when
some `Read` has failed (never on another path, cancellation included); a
failing `Read` makes the relay close it and return; from then on the relay
makes no `Read`, no close and no send. Without cancellation, once the filter
has returned the output holds exactly one end-of-stream event, as its last
event, and is that single event when the very first `Read` failed; and when
some `Read` fails, a schedule without cancellation reaches that outcome. -/
theorem C6_read_error_closes_once_and_ends_stream (src : Source) (mask : Nat)
    (files : List String) (sched : List Action) (s : State)
    (hc : (NewFileWatcher src mask files).err = none)
    (hr : run src sched (start (NewFileWatcher src mask files)) = some s) :
    s.closes ≤ 1 ∧
    (s.closes = 1 ↔ ∃ k, k < s.reads ∧ readOk src k = false) ∧
    (s.relay = RelayPc.read → readOk src s.reads = false →
      ∃ s', step src Action.relayRead s = some s' ∧ s'.closes = 1 ∧
        s'.relay = RelayPc.done) ∧
    (s.closes = 1 → s.relay = RelayPc.done ∧
      ∀ sched' s', run src sched' s = some s' →
        s'.closes = 1 ∧ s'.reads = s.reads ∧ s'.internal = s.internal) ∧
    (Action.cancel ∉ sched → s.filter = FilterPc.done →
      s.delivered.count eofEvent = 1 ∧ s.delivered.getLast? = some eofEvent ∧
        (readOk src 0 = false → s.delivered = [eofEvent])) ∧
    ((∃ k, readOk src k = false) →
      ∃ sched0 s0, Action.cancel ∉ sched0 ∧
        run src sched0 (start (NewFileWatcher src mask files)) = some s0 ∧
        s0.relay = RelayPc.done ∧ s0.filter = FilterPc.done ∧
        s0.delivered.count eofEvent = 1 ∧ s0.delivered.getLast? = some eofEvent) := by
  obtain ⟨h1, h2, h3, _⟩ := reach_inv src mask files sched s hc hr
  have hcan := (newFileWatcher_ok src mask files hc).1
  have hshape := closes_shape src s h2
  refine ⟨h1.2.2.2.2.2.2.2.2.2.2.1, ?_, ?_, ?_, ?_, ?_⟩
  · constructor
    · intro hcl
      rcases hshape with hsh | ⟨_, _, k, hk, _, herr⟩
      · omega
      · exact ⟨k, by omega, herr⟩
    · rintro ⟨k, hk, herr⟩
      rcases hshape with hsh | hsh
      · have := hsh.2 k hk
        rw [this] at herr
        exact absurd herr (by simp)
      · exact hsh.1
  · intro hrp herr
    have hcl : s.closes = 0 := by
      rcases hshape with hsh | hsh
      · exact hsh.1
      · rw [hsh.2.1] at hrp; exact absurd hrp (by simp)
    cases hread : src.read s.reads with
    | ok raw => simp [readOk, hread] at herr
    | error e => simp [step, hrp, hread, hcl]
  · intro hcl
    have hrd : s.relay = RelayPc.done := by
      rcases hshape with hsh | hsh
      · omega
      · exact hsh.2.1
    refine ⟨hrd, fun sched' s' hr' => ?_⟩
    obtain ⟨_, k2, k3, k4⟩ := relay_done_run src sched' s s' hrd hr'
    exact ⟨k2.trans hcl, k3, k4⟩
  · intro hn hf
    have hcn : s.cancelled = false := by
      rw [nocancel_run src sched _ s hn hr]
      simp [start, hcan]
    exact complete_eof_once src s h1 h2 h3 hcn hf
  · intro hex
    have hfe : ∃ k, readOk src k = false := hex
    have herr := Nat.find_spec hfe
    have hok : AllOk src (Nat.find hfe) := by
      intro i hi
      have := Nat.find_min hfe hi
      simpa using this
    obtain ⟨sched0, hn0, s0, hr0, k1, k2, k3⟩ :=
      exists_complete_run src mask files (Nat.find hfe) hc hok herr
    obtain ⟨g1, g2, g3, _⟩ := reach_inv src mask files sched0 s0 hc hr0
    obtain ⟨c1, c2, _⟩ := complete_eof_once src s0 g1 g2 g3 k3 k2
    exact ⟨sched0, s0, hn0, hr0, k1, k2, c1, c2⟩

/-- Witness of C6: the very first `Read` fails; the whole output is the
end-of-stream event. -/
theorem C6_witness :
    (NewFileWatcher (batchSource [] "closed") 768 ["/tmp/a"]).err = none ∧
    run (batchSource [] "closed")
        [Action.spawnFilter, Action.relayRead, Action.filterRecvClosed, Action.callerRecv,
          Action.filterSend]
        (start (NewFileWatcher (batchSource [] "closed") 768 ["/tmp/a"])) =
      some
        { expectedPaths := [("/tmp/a", true)], cancelled := false, reads := 1, closes := 1,
          relay := RelayPc.done, filter := FilterPc.done, callerWaiting := false,
          internal := [], delivered := [eofEvent], wg := 0, waits := 0 } ∧
    (1 = 1 ↔ ∃ k, k < 1 ∧ readOk (batchSource [] "closed") k = false) :=
  ⟨by decide, by decide,
    (C6_read_error_closes_once_and_ends_stream (batchSource [] "closed") 768 ["/tmp/a"]
      [Action.spawnFilter, Action.relayRead, Action.filterRecvClosed, Action.callerRecv,
        Action.filterSend]
      { expectedPaths := [("/tmp/a", true)], cancelled := false, reads := 1, closes := 1,
        relay := RelayPc.done, filter := FilterPc.done, callerWaiting := false,
        internal := [], delivered := [eofEvent], wg := 0, waits := 0 }
      (by decide) (by decide)).2.1⟩

/-! ## Cancellation -/

theorem reads_step (src : Source) (a : Action) (s s' : State) (ha : a ≠ Action.relayRead)
    (hs : step src a s = some s') : s'.reads = s.reads := by
  obtain ⟨m, c, r, cl, rp, fp, cw, int, del, wg, w⟩ := s
  cases a <;> simp only [step, State.returned, relayNext, afterRecv] at hs <;>
    (repeat' (split at hs)) <;> cases hs <;> first | rfl | exact absurd rfl ha

theorem reads_run (src : Source) (sched : List Action) :
    ∀ s s' : State, Action.relayRead ∉ sched → run src sched s = some s' →
      s'.reads = s.reads := by
  induction sched with
  | nil => intro s s' _ h; simp only [run, Option.some.injEq] at h; rw [h]
  | cons a l ih =>
    intro s s' hmem h
    obtain ⟨s1, h1, h2⟩ := run_cons src a l s s' h
    have ha : a ≠ Action.relayRead := fun e => hmem (by simp [e])
    have hl : Action.relayRead ∉ l := fun e => hmem (by simp [e])
    rw [ih s1 s' hl h2, reads_step src a s s1 ha h1]

/-- After cancellation nothing is handed over on the internal channel: a
hand-over needs one side blocked in its select, and cancellation has woken
every blocked select. -/
theorem internal_frozen_step (src : Source) (a : Action) (s s' : State)
    (h : CtlInv s) (hc : s.cancelled = true) (hs : step src a s = some s') :
    s'.internal = s.internal := by
  obtain ⟨m, c, r, cl, rp, fp, cw, int, del, wg, w⟩ := s
  have hp := h.2.1 hc
  simp only at hc hp
  subst hc
  cases a <;> simp only [step, State.returned, relayNext, afterRecv] at hs <;>
    (repeat' (split at hs)) <;> cases hs <;>
    first | rfl | (simp [RelayPc.isParked, FilterPc.isParked] at hp)

theorem internal_frozen_run (src : Source) (sched : List Action) (s s' : State)
    (h : CtlInv s) (hc : s.cancelled = true) (hr : run src sched s = some s') :
    s'.internal = s.internal := by
  have := run_invariant src
    (fun t => CtlInv t ∧ t.cancelled = true ∧ t.internal = s.internal)
    (fun a t t' ht hs =>
      ⟨ctlInv_step src a t t' ht.1 hs, cancelled_step src a t t' ht.2.1 hs,
        (internal_frozen_step src a t t' ht.1 ht.2.1 hs).trans ht.2.2⟩)
    sched s s' ⟨h, hc, rfl⟩ hr
  exact this.2.2

/-- Counterexample to C7 as stated: the context is cancelled right after
construction, before any `Read` has returned; the caller then waits on `C`,
the first `Read` fails, the filter goroutine reaches its select of line 78 with
both cases ready and takes the closed channel, then in the select of line 84
takes the send: the end-of-stream event is delivered after cancellation. -/
theorem C7_counterexample :
    (NewFileWatcher (batchSource [] "closed") 768 ["/tmp/a"]).err = none ∧
    (run (batchSource [] "closed")
        [Action.spawnFilter, Action.cancel, Action.callerRecv, Action.relayRead,
          Action.filterRecvClosed, Action.filterSend]
        (start (NewFileWatcher (batchSource [] "closed") 768 ["/tmp/a"]))).map
      (fun s => (s.cancelled, s.reads, s.delivered)) = some (true, 1, [eofEvent]) := by
  decide

/-- C7 (amended): when the context is cancelled before any `Read` has
returned, then under every later behaviour of the source and every schedule
no record is ever handed over on the internal channel and no record is
delivered on `C`: the output is empty or is the single end-of-stream event. -/
theorem C7_cancel_before_first_read (src : Source) (mask : Nat) (files : List String)
    (pre post : List Action) (s : State)
    (hc : (NewFileWatcher src mask files).err = none)
    (hpre : Action.relayRead ∉ pre)
    (hr : run src (pre ++ Action.cancel :: post) (start (NewFileWatcher src mask files)) =
      some s) :
    s.cancelled = true ∧ s.internal = [] ∧
    (s.delivered = [] ∨ s.delivered = [eofEvent]) ∧
    (∀ e : InotifyEvent, wrapEvent e ∉ s.delivered) := by
  obtain ⟨s1, hr1, hr2⟩ := run_append src pre (Action.cancel :: post) _ s hr
  obtain ⟨s2, hs2, hr3⟩ := run_cons src Action.cancel post s1 s hr2
  obtain ⟨g1, g2, _, _⟩ := reach_inv src mask files pre s1 hc hr1
  have hreads : s1.reads = 0 := by
    rw [reads_run src pre _ s1 hpre hr1]; rfl
  have hint1 : s1.internal = [] := by
    have := internal_le_log src s1 g2
    rw [hreads] at this
    simpa [readLog] using this
  have hc2 : s2.cancelled = true := by
    simp only [step, Option.some.injEq] at hs2
    rw [← hs2]
  have hint2 : s2.internal = [] := by
    simp only [step, Option.some.injEq] at hs2
    rw [← hs2]; exact hint1
  have hctl2 : CtlInv s2 := ctlInv_step src _ s1 s2 g1 hs2
  have hint : s.internal = [] := (internal_frozen_run src post s2 s hctl2 hc2 hr3).trans hint2
  have hcs : s.cancelled = true :=
    run_invariant src (fun t => t.cancelled = true) (cancelled_step src) post s2 s hc2 hr3
  obtain ⟨_, _, h3, _⟩ := reach_inv src mask files _ s hc hr
  obtain ⟨recs, hp, hs⟩ := delivered_shape s h3
  have hrecs : recs = [] := by
    rw [hint] at hp
    simpa [keep] using hp
  have hd : s.delivered = [] ∨ s.delivered = [eofEvent] := by
    rcases hs with hs | hs
    · exact Or.inl (by rw [hs, hrecs])
    · exact Or.inr (by rw [hs.1, hrecs]; rfl)
  refine ⟨hcs, hint, hd, fun e hmem => ?_⟩
  rcases hd with hd | hd
  · rw [hd] at hmem; simp at hmem
  · rw [hd] at hmem
    exact wrapEvent_ne_eof e (by simpa using hmem)

/-- Witness of C7 (amended): cancellation right after construction, then a
`Read` that returns the records of the scenario; nothing is delivered. -/
theorem C7_witness :
    (NewFileWatcher scenarioSource 768 ["/tmp/a", "/tmp/b"]).err = none ∧
    Action.relayRead ∉ [Action.spawnFilter, Action.filterPark, Action.callerRecv] ∧
    run scenarioSource
        ([Action.spawnFilter, Action.filterPark, Action.callerRecv] ++
          Action.cancel :: [Action.relayRead, Action.relayDone, Action.filterDone])
        (start (NewFileWatcher scenarioSource 768 ["/tmp/a", "/tmp/b"])) =
      some (scenarioAfter
        ([Action.spawnFilter, Action.filterPark, Action.callerRecv] ++
          Action.cancel :: [Action.relayRead, Action.relayDone, Action.filterDone])) ∧
    (scenarioAfter
        ([Action.spawnFilter, Action.filterPark, Action.callerRecv] ++
          Action.cancel :: [Action.relayRead, Action.relayDone,
            Action.filterDone])).internal = [] :=
  ⟨by decide, by decide, by decide,
    (C7_cancel_before_first_read scenarioSource 768 ["/tmp/a", "/tmp/b"]
      [Action.spawnFilter, Action.filterPark, Action.callerRecv]
      [Action.relayRead, Action.relayDone, Action.filterDone] _
      (by decide) (by decide) (by decide)).2.1⟩

end Gonotify
